import Mathlib

/-!
Verification of the mini-agents core (agent loop, summarizer, tool executor,
cancellation cleanup, and the four LLM provider adapters) against its
natural-language specification.

The TypeScript sources are shallowly embedded as executable Lean functions.
JavaScript `null`/`undefined` values are modelled with `Option`; where the
distinction between a field that is present-but-`null` and a field that is
absent (`undefined`) matters, the three-valued `JOpt` type is used.
JavaScript string truthiness (`""` is falsy) is modelled explicitly.
Parsed JSON argument objects are modelled by the opaque association-list
stand-in `Args`; the tokenizer `countTokens` is an external collaborator of
the core and is taken as a function parameter.
-/

namespace MiniAgents

/-- Message roles of the canonical message model (types/llm.ts). -/
inductive Role
  | system
  | user
  | assistant
  | tool
deriving DecidableEq, Repr

/-- Stand-in for a parsed JSON argument mapping (`Record<string, unknown>`).
The core never inspects argument values, so string values suffice. -/
abbrev Args := List (String × String)

/-- Serialize an argument mapping the way `JSON.stringify` renders an object.
Only the shape matters to the core (the string is fed to the tokenizer or
put on the wire); values are rendered as JSON strings. -/
def argsJson (a : Args) : String :=
  "\x7b" ++ String.intercalate ","
    (a.map (fun p => "\"" ++ p.1 ++ "\":\"" ++ p.2 ++ "\"")) ++ "\x7d"

/-- The `function` field of a `ToolCall` (types/llm.ts). -/
structure FunctionCall where
  name : String
  arguments : Args
deriving DecidableEq, Repr

/-- Canonical tool call.  `type` is the constant string "function" and is
omitted.  `id` is the provider item ID (only the Responses adapter sets it);
`callId` is the required correlation ID. -/
structure ToolCall where
  id : Option String := none
  callId : String
  function : FunctionCall
deriving DecidableEq, Repr

/-- Canonical reasoning item (types/llm.ts). -/
structure ReasoningItem where
  id : String
  summary : String
deriving DecidableEq, Repr

/-- Token usage statistics (types/llm.ts). -/
structure TokenUsage where
  promptTokens : Nat
  completionTokens : Nat
  totalTokens : Nat
deriving DecidableEq, Repr

/-- Canonical message (types/llm.ts).  In the agent core `content` is always
a string (the structured-content alternative of the TypeScript union is never
produced by the loop, the summarizer or the adapters' decoders). -/
structure Message where
  role : Role
  content : String
  thinking : Option String := none
  reasoningItems : Option (List ReasoningItem) := none
  toolCalls : Option (List ToolCall) := none
  callId : Option String := none
  name : Option String := none
deriving DecidableEq, Repr

/-- Result of a tool execution (tools/core/base.ts): `error` has TypeScript
type `string | null`. -/
structure ToolResult where
  success : Bool
  content : String
  error : Option String
deriving DecidableEq, Repr

/-- JavaScript string truthiness: the empty string is falsy. -/
def strTruthy (s : String) : Bool := s ≠ ""

/-- Truthiness of a `string | null | undefined` value. -/
def optStrTruthy : Option String → Bool
  | none => false
  | some s => strTruthy s

/-- JavaScript `a || b` for a `string | null | undefined` left operand. -/
def jsOrStr (o : Option String) (d : String) : String :=
  match o with
  | none => d
  | some s => if s = "" then d else s

/-- Template-literal rendering of a `string | null` value (JS prints `null`). -/
def renderStrOrNull : Option String → String
  | none => "null"
  | some s => s

/-! ## Tool executor (agent/tool-executor.ts) -/

/-- A thrown JavaScript value as observed by the executor's catch block.
`errObj` is an `Error` instance with its `name`, `message` and optional
`stack`; `other` is any non-`Error` thrown value, carrying `String(value)`
and the engine-assigned stack of the `Error` the executor wraps it in. -/
inductive Thrown
  | errObj (name message : String) (stack : Option String)
  | other (stringValue : String) (newErrorStack : String)
deriving DecidableEq, Repr

/-- Normalization `error instanceof Error ? error : new Error(String(error))`:
yields the `name`, `message` and `stack` the catch block reads. -/
def Thrown.normalize : Thrown → String × String × Option String
  | .errObj n m s => (n, m, s)
  | .other sv st => ("Error", sv, some st)

/-- A registered tool as the executor sees it: a name and an `execute`
function that either returns a `ToolResult` or throws. -/
structure ToolImpl where
  name : String
  execute : Args → Except Thrown ToolResult

/-- Embedding of `executeTool` (agent/tool-executor.ts, lines 12-39). -/
def executeTool (tools : List ToolImpl) (functionName : String)
    (functionArgs : Args) : ToolResult :=
  match tools.find? (fun t => t.name = functionName) with
  | none =>
      { success := false, content := "",
        error := some ("Unknown tool: " ++ functionName) }
  | some tool =>
      match tool.execute functionArgs with
      | .ok r => r
      | .error e =>
          let n := e.normalize.1
          let m := e.normalize.2.1
          let st := e.normalize.2.2
          let errName := if n = "" then "Error" else n
          let errorDetail := errName ++ ": " ++ m
          let errorTrace := jsOrStr st ""
          { success := false, content := "",
            error := some ("Tool execution failed: " ++ errorDetail ++
              "\n\nTraceback:\n" ++ errorTrace) }

/-! ## Cancellation cleanup (agent/cancellation.ts) -/

/-- Index of the last assistant-role message, scanning from the end
(the loop in `cleanupIncompleteMessages`, lines 15-23), or `none`. -/
def lastAssistantIdx : List Message → Option Nat
  | [] => none
  | m :: rest =>
    match lastAssistantIdx rest with
    | some j => some (j + 1)
    | none => if m.role = .assistant then some 0 else none

/-- Embedding of `cleanupIncompleteMessages` (agent/cancellation.ts,
lines 15-31): truncate strictly before the last assistant message. -/
def cleanupIncompleteMessages (messages : List Message) : List Message :=
  match lastAssistantIdx messages with
  | none => messages
  | some i => messages.take i

/-! ## Canonical LLM response and agent events (types/llm.ts, agent/types.ts) -/

/-- Canonical decoded model output as the agent loop consumes it
(types/llm.ts).  Optional/nullable TypeScript fields are `Option`s. -/
structure LLMResponse where
  content : String
  thinking : Option String := none
  reasoningItems : Option (List ReasoningItem) := none
  toolCalls : Option (List ToolCall) := none
  finishReason : String := "stop"
  usage : Option TokenUsage := none
  responseId : Option String := none
deriving DecidableEq, Repr

/-- Agent step events (agent/types.ts `AgentMessageEvent`). -/
inductive AgentEvent
  | thinking (thinking : Option String) (content : String)
  | toolCall (tc : ToolCall)
  | toolResult (tc : ToolCall) (result : ToolResult)
  | assistantMessage (content : String)
  | cancelled
  | summarized (beforeTokens afterTokens : Nat)
deriving DecidableEq, Repr

/-! ## Summarizer (agent/summarizer.ts)

The tokenizer `countTokens` is an external collaborator (utils/token.ts is a
thin tiktoken wrapper outside the core); it is passed as the parameter `ct`.
The LLM client is passed as `llm`; a thrown `generate` is `Except.error`. -/

/-- Retention count (summarizer.ts `RETAINED_ROUNDS`). -/
def RETAINED_ROUNDS : Nat := 3

/-- Summary marker prefix (summarizer.ts `SUMMARY_PREFIX`). -/
def SUMMARY_PREFIX : String := "[Context Summary]"

/-- Rendering of `JSON.stringify` on one canonical tool call (`id` omitted
when `undefined`, as `JSON.stringify` drops `undefined` properties). -/
def toolCallJson (tc : ToolCall) : String :=
  "\x7b" ++
    (match tc.id with
     | none => ""
     | some i => "\"id\":\"" ++ i ++ "\",") ++
    "\"callId\":\"" ++ tc.callId ++ "\",\"type\":\"function\",\"function\":" ++
    "\x7b\"name\":\"" ++ tc.function.name ++ "\",\"arguments\":" ++
    argsJson tc.function.arguments ++ "\x7d\x7d"

/-- Rendering of `JSON.stringify` on a tool-call list. -/
def toolCallsJson (l : List ToolCall) : String :=
  "[" ++ String.intercalate "," (l.map toolCallJson) ++ "]"

/-- Embedding of `estimateTokens` (summarizer.ts, lines 14-35): string
content tokens, thinking tokens when truthy, tool-call JSON tokens when the
list is present, plus 4 per message. -/
def estimateTokens (ct : String → Nat) (messages : List Message) : Nat :=
  messages.foldl
    (fun total msg =>
      let total := total + ct msg.content
      let total :=
        match msg.thinking with
        | some s => if s = "" then total else total + ct s
        | none => total
      let total :=
        match msg.toolCalls with
        | some l => total + ct (toolCallsJson l)
        | none => total
      total + 4)
    0

/-- Indices (from 1 on) of user-role messages: the start index of each round
(summarizer.ts, lines 85-90). -/
def roundStarts (messages : List Message) : List Nat :=
  (List.range messages.length).filter fun i =>
    decide (1 ≤ i) &&
      match messages[i]? with
      | some m => decide (m.role = .user)
      | none => false

/-- The message slices of the first `count` rounds: round `r` runs from its
start index up to (excluding) the next round's start, or the end of the list
(summarizer.ts, lines 98-100 and 115-116). -/
def roundSlices (messages : List Message) (starts : List Nat) (count : Nat) :
    List (List Message) :=
  (List.range count).map fun r =>
    let s := starts.getD r 0
    let e := starts.getD (r + 1) messages.length
    (messages.drop s).take (e - s)

/-- One step of the scan over the to-be-compressed messages (summarizer.ts,
lines 117-129): a user message starting with the summary prefix is captured
as the existing summary (prefix stripped, trimmed) and excluded; every other
message is gathered for compression. -/
def summaryScanStep (acc : Option String × List Message) (msg : Message) :
    Option String × List Message :=
  if msg.role = .user ∧ msg.content.startsWith SUMMARY_PREFIX then
    (some ((msg.content.drop SUMMARY_PREFIX.length).trim), acc.2)
  else
    (acc.1, acc.2 ++ [msg])

/-- Scan for an old summary between the system prompt and the first round
(summarizer.ts, lines 132-144). -/
def preRoundSummaryScan (messages : List Message) (firstStart : Nat)
    (acc : Option String) : Option String :=
  if messages.length > 1 ∧ firstStart > 1 then
    ((List.range firstStart).drop 1).foldl
      (fun a i =>
        match messages[i]? with
        | some msg =>
            if msg.role = .user ∧ msg.content.startsWith SUMMARY_PREFIX then
              some ((msg.content.drop SUMMARY_PREFIX.length).trim)
            else a
        | none => a)
      acc
  else acc

/-- Per-message section of the compression input (summarizer.ts,
lines 199-219).  Assistant thinking is never included. -/
def compressItem (msg : Message) : String :=
  match msg.role with
  | .user => "## User\n" ++ msg.content ++ "\n\n"
  | .assistant =>
      (if strTruthy msg.content then "## Assistant\n" ++ msg.content ++ "\n" else "") ++
      (match msg.toolCalls with
       | some tcs =>
           "Tools called: " ++
             String.intercalate ", " (tcs.map (fun tc => tc.function.name)) ++ "\n"
       | none => "") ++
      "\n"
  | .tool =>
      let truncated :=
        if msg.content.length > 500 then msg.content.take 500 ++ "..." else msg.content
      "## Tool Result (" ++ jsOrStr msg.name "unknown" ++ ")\n" ++ truncated ++ "\n\n"
  | .system => ""

/-- The fixed summarization system prompt (summarizer.ts, lines 222-232). -/
def summarizeSystemPrompt : String :=
  "You are an assistant that summarizes conversation context.\n" ++
  "Summarize the following conversation history into a concise context summary.\n\n" ++
  "Requirements:\n" ++
  "1. Focus on what goals the user is working towards\n" ++
  "2. Keep key results, important findings, and file paths\n" ++
  "3. Note which tools were called and their outcomes\n" ++
  "4. Preserve any unfinished tasks or pending issues\n" ++
  "5. Be concise but comprehensive, within 2000 words\n" ++
  "6. Use English\n" ++
  "7. If a previous summary is included, integrate it into the new summary"

/-- The full compression input text (summarizer.ts, lines 190-219). -/
def compressContentOf (messagesToCompress : List Message)
    (existingSummary : Option String) : String :=
  (if optStrTruthy existingSummary then
    "## Previous Context Summary\n" ++ existingSummary.getD "" ++ "\n\n"
  else "") ++
  String.join (messagesToCompress.map compressItem)

/-- The two-message request `createBatchSummary` sends to the LLM
(summarizer.ts, lines 235-238). -/
def summarizeProbe (messagesToCompress : List Message)
    (existingSummary : Option String) : List Message :=
  [{ role := .system, content := summarizeSystemPrompt },
   { role := .user, content := compressContentOf messagesToCompress existingSummary }]

/-- Embedding of `createBatchSummary` (summarizer.ts, lines 185-250): one
LLM call over the compression input; a throw or a blank summary yields
`none`. -/
def createBatchSummary (llm : List Message → Except Unit LLMResponse)
    (messagesToCompress : List Message) (existingSummary : Option String) :
    Option String :=
  match llm (summarizeProbe messagesToCompress existingSummary) with
  | .error _ => none
  | .ok response =>
      if response.content = "" ∨ response.content.trim = "" then none
      else some response.content

/-- Input record of `summarizeMessages` (summarizer.ts, lines 56-61); the
LLM client is passed separately. -/
structure SummarizeParams where
  messages : List Message
  tokenLimit : Nat
  apiTotalTokens : Nat
  skipNextTokenCheck : Bool

/-- Output record of `summarizeMessages`.  `llmCalls` instruments the model:
it counts the invocations of the LLM client's `generate` performed by the
call (the source performs exactly one inside `createBatchSummary` and none
elsewhere). -/
structure SummarizeResult where
  event : Option AgentEvent
  messages : List Message
  skipNextTokenCheck : Bool
  llmCalls : Nat
deriving Repr

/-- The synthetic summary message (summarizer.ts, lines 162-165). -/
def summaryMessage (summaryText : String) : Message :=
  { role := .user,
    content := SUMMARY_PREFIX ++
      "\n\nThe following is a summary of our previous conversation, not a new user request.\n\n" ++
      summaryText }

/-- The summarizer's compression inputs for a message list: the gathered
to-be-compressed messages and the captured existing summary (summarizer.ts,
lines 107-144: the round scan followed by the pre-first-round scan). -/
def compressionInputs (messages : List Message) : List Message × Option String :=
  let starts := roundStarts messages
  let compressCount := starts.length - RETAINED_ROUNDS
  let scan1 :=
    ((roundSlices messages starts compressCount).flatten).foldl
      summaryScanStep (none, [])
  (scan1.2, preRoundSummaryScan messages (starts.getD 0 0) scan1.1)

/-- Start index of the first retained round (summarizer.ts, lines 108-109):
the start of round `rounds.length - RETAINED_ROUNDS`. -/
def retainStartIndexOf (messages : List Message) : Nat :=
  let starts := roundStarts messages
  starts.getD (starts.length - RETAINED_ROUNDS) 0

/-- Embedding of `summarizeMessages` (summarizer.ts, lines 56-175). -/
def summarizeMessages (ct : String → Nat)
    (llm : List Message → Except Unit LLMResponse) (p : SummarizeParams) :
    SummarizeResult :=
  if p.skipNextTokenCheck then
    { event := none, messages := p.messages, skipNextTokenCheck := false, llmCalls := 0 }
  else
    let estimatedTokens := estimateTokens ct p.messages
    if ¬ (estimatedTokens > p.tokenLimit ∨ p.apiTotalTokens > p.tokenLimit) then
      { event := none, messages := p.messages,
        skipNextTokenCheck := p.skipNextTokenCheck, llmCalls := 0 }
    else
      let beforeTokens := estimatedTokens
      let starts := roundStarts p.messages
      if starts.length = 0 then
        { event := none, messages := p.messages,
          skipNextTokenCheck := p.skipNextTokenCheck, llmCalls := 0 }
      else if starts.length ≤ RETAINED_ROUNDS then
        { event := none, messages := p.messages, skipNextTokenCheck := false, llmCalls := 0 }
      else
        let retainStartIndex := retainStartIndexOf p.messages
        let ci := compressionInputs p.messages
        let messagesToCompress := ci.1
        let existingSummary := ci.2
        if messagesToCompress.length = 0 then
          { event := none, messages := p.messages, skipNextTokenCheck := false, llmCalls := 0 }
        else
          match createBatchSummary llm messagesToCompress existingSummary with
          | none =>
              { event := none, messages := p.messages,
                skipNextTokenCheck := true, llmCalls := 1 }
          | some summaryText =>
              let newMessages :=
                p.messages.take 1 ++ [summaryMessage summaryText] ++
                  p.messages.drop retainStartIndex
              let afterTokens := estimateTokens ct newMessages
              { event := some (.summarized beforeTokens afterTokens),
                messages := newMessages, skipNextTokenCheck := true, llmCalls := 1 }

/-! ## Agent loop (agent/index.ts)

`Agent.run` is an async generator.  It is modelled as a fuel-indexed function
producing the totally ordered list of observable actions of the run: yielded
events, appends to the agent's message list, and invocations of the LLM
client's `generate`.  The abort signal is modelled by the index of the first
observation point at which it reads aborted (`none`: never); observation
points are the three checkpoints, the race inside `generateWithSignal`, and
the re-check in the catch block, in temporal order. -/

/-- An observable action of a run. -/
inductive Action
  | event (e : AgentEvent)
  | append (m : Message)
  | llmCall
deriving DecidableEq, Repr

/-- How a run terminated. -/
inductive RunOutcome
  | answer (content : String)
  | cancelledCleanup
  | cancelledInFlight
  | stepCap
  | threw
deriving DecidableEq, Repr

/-- Step cap (agent/index.ts `maxSteps`). -/
def maxSteps : Nat := 50

/-- The generator's return value for each outcome (`threw` propagates an
exception instead of returning). -/
def returnValue : RunOutcome → Option String
  | .answer c => some c
  | .cancelledCleanup => some "Task cancelled by user."
  | .cancelledInFlight => some "Task cancelled by user."
  | .stepCap =>
      some ("Task couldn\x27t be completed after " ++ toString maxSteps ++ " steps.")
  | .threw => none

/-- Run configuration: the LLM client (a function of the invocation index
and the sent message list; `Except.error` is a thrown `generate`), the tool
list, the token limit, the tokenizer, and the abort schedule. -/
structure RunConfig where
  gen : Nat → List Message → Except Unit LLMResponse
  tools : List ToolImpl
  tokenLimit : Nat
  ct : String → Nat
  abortAt : Option Nat

/-- Mutable agent state threaded through a run (agent/index.ts fields),
plus the observation and LLM-invocation counters of the model. -/
structure AgentState where
  messages : List Message
  apiTotalTokens : Nat
  skipNextTokenCheck : Bool
  pollIdx : Nat
  callIdx : Nat
deriving Repr

/-- One observation of the abort signal (`checkCancelled`, or the race in
`generateWithSignal`): aborted from observation index `abortAt` on. -/
def observeAborted (cfg : RunConfig) (st : AgentState) : Bool × AgentState :=
  (match cfg.abortAt with
   | none => false
   | some t => decide (t ≤ st.pollIdx),
   { st with pollIdx := st.pollIdx + 1 })

/-- The tool-role message the loop appends for one tool result
(agent/index.ts, lines 157-163). -/
def toolMessageOf (tc : ToolCall) (result : ToolResult) : Message :=
  { role := .tool,
    content :=
      if result.success then result.content
      else "Error: " ++ renderStrOrNull result.error,
    callId := some tc.callId,
    name := some tc.function.name }

/-- The tool-dispatch phase of one step (agent/index.ts, lines 139-172):
for each call, yield `toolCall`, execute, yield `toolResult`, append the
tool message, then poll the signal (checkpoint 3).  Returns the actions,
`some outcome` if the step terminated the run, and the updated state. -/
def execToolCalls (cfg : RunConfig) :
    List ToolCall → AgentState → List Action × Option RunOutcome × AgentState
  | [], st => ([], none, st)
  | tc :: rest, st =>
      let result := executeTool cfg.tools tc.function.name tc.function.arguments
      let toolMsg := toolMessageOf tc result
      let st := { st with messages := st.messages ++ [toolMsg] }
      let ob := observeAborted cfg st
      if ob.1 then
        let st' := { ob.2 with messages := cleanupIncompleteMessages ob.2.messages }
        ([.event (.toolCall tc), .event (.toolResult tc result), .append toolMsg,
          .event .cancelled], some .cancelledCleanup, st')
      else
        let r := execToolCalls cfg rest ob.2
        ([.event (.toolCall tc), .event (.toolResult tc result), .append toolMsg] ++ r.1,
         r.2.1, r.2.2)

/-- Result of one iteration of the while loop: the run either terminates
(`done`) or proceeds to the next step (`next`). -/
inductive StepResult
  | done (trace : List Action) (outcome : RunOutcome) (st : AgentState)
  | next (trace : List Action) (st : AgentState)

/-- The summarization phase of one step (`Agent._summarizeMessages`,
agent/index.ts lines 55-66): run the summarizer on the current state and
absorb its result. -/
def summarizePhase (cfg : RunConfig) (st : AgentState) : List Action × AgentState :=
  let r := summarizeMessages cfg.ct (cfg.gen st.callIdx)
    { messages := st.messages, tokenLimit := cfg.tokenLimit,
      apiTotalTokens := st.apiTotalTokens,
      skipNextTokenCheck := st.skipNextTokenCheck }
  (List.replicate r.llmCalls .llmCall ++
    (match r.event with
     | some e => [Action.event e]
     | none => []),
   { st with messages := r.messages, skipNextTokenCheck := r.skipNextTokenCheck,
             callIdx := st.callIdx + r.llmCalls })

/-- One iteration of the while loop in `Agent.run` (agent/index.ts,
lines 74-178). -/
def runStep (cfg : RunConfig) (st : AgentState) : StepResult :=
  let ob1 := observeAborted cfg st
  if ob1.1 then
    let st' := { ob1.2 with messages := cleanupIncompleteMessages ob1.2.messages }
    .done [.event .cancelled] .cancelledCleanup st'
  else
    let sp := summarizePhase cfg ob1.2
    let sumTr := sp.1
    let st := sp.2
    let genResult := cfg.gen st.callIdx st.messages
    let st := { st with callIdx := st.callIdx + 1 }
    let ob2 := observeAborted cfg st
    if ob2.1 then
      .done (sumTr ++ [.llmCall, .event .cancelled]) .cancelledInFlight ob2.2
    else
      match genResult with
      | .error _ =>
          let ob3 := observeAborted cfg ob2.2
          if ob3.1 then
            .done (sumTr ++ [.llmCall, .event .cancelled]) .cancelledInFlight ob3.2
          else
            .done (sumTr ++ [.llmCall]) .threw ob3.2
      | .ok response =>
          let st := ob2.2
          let st :=
            match response.usage with
            | some u => { st with apiTotalTokens := u.totalTokens }
            | none => st
          let am : Message :=
            { role := .assistant, content := response.content,
              thinking := response.thinking,
              reasoningItems := response.reasoningItems,
              toolCalls := response.toolCalls }
          let st := { st with messages := st.messages ++ [am] }
          let thinkTr :=
            if optStrTruthy response.thinking then
              [Action.event (.thinking response.thinking response.content)]
            else []
          match response.toolCalls with
          | none =>
              let msgTr :=
                if strTruthy response.content then
                  [Action.event (.assistantMessage response.content)]
                else []
              .done (sumTr ++ [.llmCall, .append am] ++ thinkTr ++ msgTr)
                (.answer response.content) st
          | some tcs =>
              let ob4 := observeAborted cfg st
              if ob4.1 then
                let st' :=
                  { ob4.2 with messages := cleanupIncompleteMessages ob4.2.messages }
                .done (sumTr ++ [.llmCall, .append am] ++ thinkTr ++ [.event .cancelled])
                  .cancelledCleanup st'
              else
                match execToolCalls cfg tcs ob4.2 with
                | (tr, some out, st') =>
                    .done (sumTr ++ [.llmCall, .append am] ++ thinkTr ++ tr) out st'
                | (tr, none, st') =>
                    .next (sumTr ++ [.llmCall, .append am] ++ thinkTr ++ tr) st'

/-- The while loop of `Agent.run`, with the remaining step budget as fuel. -/
def runLoop (cfg : RunConfig) : Nat → AgentState → List Action × RunOutcome × AgentState
  | 0, st => ([], .stepCap, st)
  | fuel + 1, st =>
      match runStep cfg st with
      | .done tr out st' => (tr, out, st')
      | .next tr st' =>
          let r := runLoop cfg fuel st'
          (tr ++ r.1, r.2.1, r.2.2)

/-- State at `run` entry for a given message list. -/
def initialState (messages : List Message) : AgentState :=
  { messages := messages, apiTotalTokens := 0, skipNextTokenCheck := false,
    pollIdx := 0, callIdx := 0 }

/-- A full `run` invocation. -/
def run (cfg : RunConfig) (messages : List Message) :
    List Action × RunOutcome × AgentState :=
  runLoop cfg maxSteps (initialState messages)

/-- The message list the `Agent` constructor plus `addUserMessage` calls
build before a run: the system prompt, then user messages. -/
def initMessages (systemPrompt : String) (userMessages : List String) : List Message :=
  { role := .system, content := systemPrompt } ::
    userMessages.map (fun s => { role := .user, content := s })

/-! ## Provider adapters

Each adapter's `_parseResponse` (decode) and `_convertMessages` (encode) are
embedded over a model of that provider's wire shape.  Wire `arguments`
carried as JSON strings are modelled pre-parsed (`Args`); malformed JSON
makes the real decoder throw and is outside the decode contract.  Decode
results use the three-valued `JOpt` so that an object-literal field that is
absent (`undefined`) is distinguishable from one set to `null`. -/

/-- A JavaScript field value: absent, `null`, or present. -/
inductive JOpt (α : Type)
  | undef
  | null
  | val (a : α)
deriving DecidableEq, Repr

/-- Collapse to `Option` (both `undefined` and `null` read as absent). -/
def JOpt.toOption {α : Type} : JOpt α → Option α
  | .undef => none
  | .null => none
  | .val a => some a

/-- The object literal a decoder returns, field by field. -/
structure LLMResponseJS where
  content : JOpt String
  thinking : JOpt String
  reasoningItems : JOpt (List ReasoningItem)
  toolCalls : JOpt (List ToolCall)
  finishReason : JOpt String
  usage : JOpt TokenUsage
  responseId : JOpt String
deriving DecidableEq, Repr

/-- Every canonical field of the decoded record is present (possibly
`null`), never `undefined`/missing. -/
def LLMResponseJS.fullyPopulated (r : LLMResponseJS) : Bool :=
  r.content ≠ JOpt.undef && r.thinking ≠ JOpt.undef &&
  r.reasoningItems ≠ JOpt.undef && r.toolCalls ≠ JOpt.undef &&
  r.finishReason ≠ JOpt.undef && r.usage ≠ JOpt.undef &&
  r.responseId ≠ JOpt.undef

/-- The assistant message the agent loop appends from a decoded response
(agent/index.ts, lines 100-106). -/
def assistantMessageOf (r : LLMResponseJS) : Message :=
  { role := .assistant, content := (r.content.toOption).getD "",
    thinking := r.thinking.toOption,
    reasoningItems := r.reasoningItems.toOption,
    toolCalls := r.toolCalls.toOption }

/-- The correlation IDs of a decoded response's tool calls. -/
def canonCallIds (r : LLMResponseJS) : List String :=
  match r.toolCalls.toOption with
  | some l => l.map (fun tc => tc.callId)
  | none => []

/-! ### Anthropic Messages adapter (llm/anthropic-client.ts) -/

/-- Anthropic content blocks (responses and requests). -/
inductive ABlock
  | text (text : String)
  | thinkingB (thinking : String)
  | toolUse (id : String) (name : String) (input : Args)
  | toolResultB (tool_use_id : String) (content : String)
  | otherB
deriving DecidableEq, Repr

/-- Anthropic response usage record. -/
structure AnthropicUsage where
  input_tokens : Option Nat
  output_tokens : Option Nat
deriving DecidableEq, Repr

/-- An Anthropic Messages API response. -/
structure AnthropicResponse where
  content : List ABlock
  stop_reason : Option String
  usage : Option AnthropicUsage
deriving DecidableEq, Repr

/-- Embedding of `AnthropicClient._parseResponse` (anthropic-client.ts,
lines 188-232).  The returned object literal sets neither `reasoningItems`
nor `responseId`. -/
def AnthropicClient.parseResponse (response : AnthropicResponse) : LLMResponseJS :=
  let acc :=
    response.content.foldl
      (fun (acc : String × String × List ToolCall) block =>
        match block with
        | .text t => (acc.1 ++ t, acc.2.1, acc.2.2)
        | .thinkingB t => (acc.1, acc.2.1 ++ t, acc.2.2)
        | .toolUse id name input =>
            (acc.1, acc.2.1,
             acc.2.2 ++ [{ callId := id,
                           function := { name := name, arguments := input } }])
        | .toolResultB _ _ => acc
        | .otherB => acc)
      ("", "", [])
  let usage : JOpt TokenUsage :=
    match response.usage with
    | some u =>
        let promptTokens := u.input_tokens.getD 0
        let completionTokens := u.output_tokens.getD 0
        .val { promptTokens := promptTokens, completionTokens := completionTokens,
               totalTokens := promptTokens + completionTokens }
    | none => .null
  { content := .val acc.1,
    thinking := if acc.2.1 = "" then .null else .val acc.2.1,
    reasoningItems := .undef,
    toolCalls := if acc.2.2.length > 0 then .val acc.2.2 else .null,
    finishReason := .val (jsOrStr response.stop_reason "stop"),
    usage := usage,
    responseId := .undef }

/-- One Anthropic request message: role and string-or-blocks content. -/
inductive AReqContent
  | str (s : String)
  | blocks (bs : List ABlock)
deriving DecidableEq, Repr

/-- An Anthropic request message. -/
structure AReqMessage where
  role : String
  content : AReqContent
deriving DecidableEq, Repr

/-- Embedding of `AnthropicClient._convertMessages` (anthropic-client.ts,
lines 70-146): the system message is lifted out; an assistant message with
truthy `thinking` or present `toolCalls` becomes a block sequence; tool
messages become user messages with one `tool_result` block. -/
def AnthropicClient.convertMessages (messages : List Message) :
    Option String × List AReqMessage :=
  messages.foldl
    (fun (acc : Option String × List AReqMessage) msg =>
      match msg.role with
      | .system => (some msg.content, acc.2)
      | .user => (acc.1, acc.2 ++ [{ role := "user", content := .str msg.content }])
      | .assistant =>
          if optStrTruthy msg.thinking ∨ msg.toolCalls.isSome then
            let blocks :=
              (match msg.thinking with
               | some t => if t = "" then [] else [ABlock.thinkingB t]
               | none => []) ++
              (if strTruthy msg.content then [ABlock.text msg.content] else []) ++
              (match msg.toolCalls with
               | some tcs =>
                   tcs.map (fun tc =>
                     ABlock.toolUse tc.callId tc.function.name tc.function.arguments)
               | none => [])
            (acc.1, acc.2 ++ [{ role := "assistant", content := .blocks blocks }])
          else
            (acc.1, acc.2 ++ [{ role := "assistant", content := .str msg.content }])
      | .tool =>
          (acc.1, acc.2 ++
            [{ role := "user",
               content := .blocks [ABlock.toolResultB (msg.callId.getD "") msg.content] }]))
    (none, [])

/-- The `tool_use.id` values of an encoded Anthropic request, in order. -/
def anthropicToolUseIds (reqs : List AReqMessage) : List String :=
  (reqs.map (fun r =>
    match r.content with
    | .blocks bs =>
        bs.filterMap (fun b =>
          match b with
          | .toolUse id _ _ => some id
          | _ => none)
    | .str _ => [])).flatten

/-! ### OpenAI Responses adapter (llm/openai-client.ts) -/

/-- Content parts of a Responses `message` output item. -/
inductive RContentPart
  | outputText (text : String)
  | otherPart
deriving DecidableEq, Repr

/-- Responses API output items. -/
inductive ROutputItem
  | message (content : List RContentPart)
  | functionCall (id : Option String) (call_id : String) (name : String) (argumentsV : Args)
  | reasoning (id : String) (summary : Option (List String))
  | otherItem
deriving DecidableEq, Repr

/-- Responses usage record. -/
structure ResponsesUsage where
  input_tokens : Option Nat
  output_tokens : Option Nat
  total_tokens : Option Nat
deriving DecidableEq, Repr

/-- A Responses API response. -/
structure ResponsesResponse where
  output : List ROutputItem
  status : Option String
  usage : Option ResponsesUsage
  id : String
deriving DecidableEq, Repr

/-- Embedding of `OpenAIClient._parseResponse` (anthropic-client.ts source
file, lines 458-541 of the concatenated sources; openai-client.ts). -/
def OpenAIClient.parseResponse (response : ResponsesResponse) : LLMResponseJS :=
  let acc :=
    response.output.foldl
      (fun (acc : String × String × List ReasoningItem × List ToolCall) item =>
        match item with
        | .message content =>
            (acc.1 ++ String.join (content.map (fun c =>
               match c with
               | .outputText t => t
               | .otherPart => "")),
             acc.2.1, acc.2.2.1, acc.2.2.2)
        | .functionCall id call_id name args =>
            (acc.1, acc.2.1, acc.2.2.1,
             acc.2.2.2 ++ [{ id := some (jsOrStr id ""), callId := call_id,
                             function := { name := name, arguments := args } }])
        | .reasoning id summary =>
            let summaryText :=
              match summary with
              | some l => String.join l
              | none => ""
            (acc.1, acc.2.1 ++ summaryText,
             acc.2.2.1 ++ [{ id := id, summary := summaryText }], acc.2.2.2)
        | .otherItem => acc)
      ("", "", [], [])
  let finishReason :=
    if response.status = some "incomplete" then "length"
    else if response.status = some "failed" then "error"
    else if response.status = some "cancelled" then "cancelled"
    else "stop"
  let usage : JOpt TokenUsage :=
    match response.usage with
    | some u =>
        .val { promptTokens := u.input_tokens.getD 0,
               completionTokens := u.output_tokens.getD 0,
               totalTokens := u.total_tokens.getD 0 }
    | none => .null
  { content := .val acc.1,
    thinking := if acc.2.1 = "" then .null else .val acc.2.1,
    reasoningItems := if acc.2.2.1.length > 0 then .val acc.2.2.1 else .null,
    toolCalls := if acc.2.2.2.length > 0 then .val acc.2.2.2 else .null,
    finishReason := .val finishReason,
    usage := usage,
    responseId := .val response.id }

/-- Responses API request input items. -/
inductive RInputItem
  | easy (role : String) (content : String)
  | reasoningItem (id : String) (summaryText : String)
  | functionCall (name : String) (argumentsJson : String) (call_id : String) (id : Option String)
  | functionCallOutput (call_id : String) (output : String)
deriving DecidableEq, Repr

/-- Embedding of `OpenAIClient._convertMessages` (openai-client.ts,
lines 332-402 region): reasoning items, then function_call items, then an
optional assistant message item. -/
def OpenAIClient.convertMessages (messages : List Message) :
    Option String × List RInputItem :=
  messages.foldl
    (fun (acc : Option String × List RInputItem) msg =>
      match msg.role with
      | .system => (some msg.content, acc.2)
      | .user => (acc.1, acc.2 ++ [.easy "user" msg.content])
      | .assistant =>
          let items :=
            (match msg.reasoningItems with
             | some l => l.map (fun ri => RInputItem.reasoningItem ri.id ri.summary)
             | none => []) ++
            (match msg.toolCalls with
             | some tcs =>
                 tcs.map (fun tc =>
                   RInputItem.functionCall tc.function.name
                     (argsJson tc.function.arguments) tc.callId tc.id)
             | none => []) ++
            (if strTruthy msg.content then [RInputItem.easy "assistant" msg.content] else [])
          (acc.1, acc.2 ++ items)
      | .tool =>
          (acc.1, acc.2 ++ [.functionCallOutput (msg.callId.getD "") msg.content]))
    (none, [])

/-- The `(call_id, id)` pairs of the `function_call` items of an encoded
Responses request, in order. -/
def responsesFunctionCallIds (items : List RInputItem) : List (String × Option String) :=
  items.filterMap (fun it =>
    match it with
    | .functionCall _ _ call_id id => some (call_id, id)
    | _ => none)

/-- The ids of the `reasoning` items of an encoded Responses request. -/
def responsesReasoningIds (items : List RInputItem) : List String :=
  items.filterMap (fun it =>
    match it with
    | .reasoningItem id _ => some id
    | _ => none)

/-! ### Google Gemini adapter (llm/gemini-client.ts) -/

/-- A Gemini `functionCall` part payload. -/
structure GFunctionCallW where
  id : Option String
  name : Option String
  args : Option Args
deriving DecidableEq, Repr

/-- A Gemini response part: optional text, thought flag, function call. -/
structure GPartW where
  text : Option String := none
  thought : Option Bool := none
  functionCall : Option GFunctionCallW := none
deriving DecidableEq, Repr

/-- A Gemini candidate's content. -/
structure GContentW where
  parts : Option (List GPartW)
deriving DecidableEq, Repr

/-- A Gemini response candidate. -/
structure GCandidateW where
  content : Option GContentW
  finishReason : Option String
deriving DecidableEq, Repr

/-- Gemini usage metadata. -/
structure GUsageW where
  promptTokenCount : Option Nat
  candidatesTokenCount : Option Nat
  totalTokenCount : Option Nat
deriving DecidableEq, Repr

/-- A Gemini generateContent response. -/
structure GeminiResponse where
  candidates : Option (List GCandidateW)
  usageMetadata : Option GUsageW
  responseId : Option String
deriving DecidableEq, Repr

/-- One iteration of the part loop in `GeminiClient._parseResponse`
(gemini-client.ts, lines 228-257); `i` is the part index, `now` the value
of `Date.now()` used for synthesized fallback call IDs. -/
def geminiPartStep (now : Nat) (acc : String × String × List ToolCall)
    (i : Nat) (part : GPartW) : String × String × List ToolCall :=
  if part.thought = some true ∧ optStrTruthy part.text then
    (acc.1, acc.2.1 ++ part.text.getD "", acc.2.2)
  else if part.text.isSome ∧ ¬ part.thought.getD false then
    (acc.1 ++ part.text.getD "", acc.2.1, acc.2.2)
  else
    match part.functionCall with
    | some fc =>
        let callId := jsOrStr fc.id ("gemini_call_" ++ toString now ++ "_" ++ toString i)
        (acc.1, acc.2.1,
         acc.2.2 ++ [{ callId := callId,
                       function := { name := jsOrStr fc.name "",
                                     arguments := fc.args.getD [] } }])
    | none => acc

/-- Fold `geminiPartStep` over the parts with their indices. -/
def geminiScanParts (now : Nat) (i : Nat) (acc : String × String × List ToolCall) :
    List GPartW → String × String × List ToolCall
  | [] => acc
  | part :: rest => geminiScanParts now (i + 1) (geminiPartStep now acc i part) rest

/-- Embedding of `GeminiClient._parseResponse` (gemini-client.ts,
lines 220-280).  The returned object literal does not set
`reasoningItems`. -/
def GeminiClient.parseResponse (now : Nat) (response : GeminiResponse) : LLMResponseJS :=
  let parts :=
    match response.candidates with
    | some (c :: _) =>
        (match c.content with
         | some ct => ct.parts.getD []
         | none => [])
    | _ => []
  let acc := geminiScanParts now 0 ("", "", []) parts
  let finishReason :=
    match response.candidates with
    | some (c :: _) => jsOrStr c.finishReason "STOP"
    | _ => "STOP"
  let usage : JOpt TokenUsage :=
    match response.usageMetadata with
    | some u =>
        .val { promptTokens := u.promptTokenCount.getD 0,
               completionTokens := u.candidatesTokenCount.getD 0,
               totalTokens := u.totalTokenCount.getD 0 }
    | none => .null
  { content := .val acc.1,
    thinking := if acc.2.1 = "" then .null else .val acc.2.1,
    reasoningItems := .undef,
    toolCalls := if acc.2.2.length > 0 then .val acc.2.2 else .null,
    finishReason := .val finishReason,
    usage := usage,
    responseId :=
      if optStrTruthy response.responseId then .val (response.responseId.getD "")
      else .null }

/-- Gemini request parts. -/
inductive GReqPart
  | textP (s : String)
  | thoughtP (s : String)
  | functionCallP (name : String) (args : Args) (id : String)
  | functionResponseP (name : String) (id : Option String) (output : String)
deriving DecidableEq, Repr

/-- A Gemini request content entry. -/
structure GReqContent where
  role : String
  parts : List GReqPart
deriving DecidableEq, Repr

/-- Embedding of `GeminiClient._convertMessages` (gemini-client.ts,
lines 80-160). -/
def GeminiClient.convertMessages (messages : List Message) :
    Option String × List GReqContent :=
  messages.foldl
    (fun (acc : Option String × List GReqContent) msg =>
      match msg.role with
      | .system => (some msg.content, acc.2)
      | .user => (acc.1, acc.2 ++ [{ role := "user", parts := [.textP msg.content] }])
      | .assistant =>
          let parts :=
            (match msg.thinking with
             | some t => if t = "" then [] else [GReqPart.thoughtP t]
             | none => []) ++
            (if strTruthy msg.content then [GReqPart.textP msg.content] else []) ++
            (match msg.toolCalls with
             | some tcs =>
                 tcs.map (fun tc =>
                   GReqPart.functionCallP tc.function.name tc.function.arguments tc.callId)
             | none => [])
          let parts := if parts.length = 0 then [GReqPart.textP ""] else parts
          (acc.1, acc.2 ++ [{ role := "model", parts := parts }])
      | .tool =>
          (acc.1, acc.2 ++
            [{ role := "user",
               parts := [GReqPart.functionResponseP (jsOrStr msg.name "")
                 (match msg.callId with
                  | some c => if c = "" then none else some c
                  | none => none)
                 msg.content] }]))
    (none, [])

/-- The `functionCall.id` values of an encoded Gemini request, in order. -/
def geminiFunctionCallIds (contents : List GReqContent) : List String :=
  (contents.map (fun c =>
    c.parts.filterMap (fun p =>
      match p with
      | .functionCallP _ _ id => some id
      | _ => none))).flatten

/-! ### OpenAI Chat Completions adapter (llm/openai-chat-client.ts) -/

/-- A Chat Completions response tool call.  `function_arguments` stands for
the JSON-parsed value of the wire `function.arguments` string. -/
structure CToolCallW where
  id : String
  type : String
  function_name : String
  function_arguments : Args
deriving DecidableEq, Repr

/-- A Chat Completions response message. -/
structure CMessageW where
  content : Option String
  tool_calls : Option (List CToolCallW)
deriving DecidableEq, Repr

/-- A Chat Completions choice. -/
structure CChoiceW where
  message : Option CMessageW
  finish_reason : Option String
deriving DecidableEq, Repr

/-- Chat Completions usage record. -/
structure CUsageW where
  prompt_tokens : Option Nat
  completion_tokens : Option Nat
  total_tokens : Option Nat
deriving DecidableEq, Repr

/-- A Chat Completions response. -/
structure ChatResponse where
  choices : List CChoiceW
  usage : Option CUsageW
  id : String
deriving DecidableEq, Repr

/-- Embedding of `OpenAIChatClient._parseResponse` (openai-chat-client.ts,
lines 172-221): the single wire `id` is used as both `id` and `callId`;
non-`function` tool calls are skipped. -/
def OpenAIChatClient.parseResponse (response : ChatResponse) : LLMResponseJS :=
  let choice := response.choices[0]?
  let message := choice.bind (fun c => c.message)
  let textContent := jsOrStr (message.bind (fun m => m.content)) ""
  let toolCalls :=
    match message.bind (fun m => m.tool_calls) with
    | some l =>
        l.foldl
          (fun acc tc =>
            if tc.type ≠ "function" then acc
            else
              acc ++ [{ id := some tc.id, callId := tc.id,
                        function := { name := tc.function_name,
                                      arguments := tc.function_arguments } }])
          ([] : List ToolCall)
    | none => []
  let finishReason := jsOrStr (choice.bind (fun c => c.finish_reason)) "stop"
  let usage : JOpt TokenUsage :=
    match response.usage with
    | some u =>
        .val { promptTokens := u.prompt_tokens.getD 0,
               completionTokens := u.completion_tokens.getD 0,
               totalTokens := u.total_tokens.getD 0 }
    | none => .null
  { content := .val textContent,
    thinking := .null,
    reasoningItems := .null,
    toolCalls := if toolCalls.length > 0 then .val toolCalls else .null,
    finishReason := .val finishReason,
    usage := usage,
    responseId := .val response.id }

/-- A wire tool call of a Chat Completions request: id, name, arguments
JSON. -/
structure CReqToolCall where
  id : String
  function_name : String
  function_arguments : String
deriving DecidableEq, Repr

/-- Chat Completions request messages. -/
inductive CReqMessage
  | sys (content : String)
  | usr (content : String)
  | asstPlain (content : String)
  | asstToolCalls (content : Option String) (tool_calls : List CReqToolCall)
  | toolMsg (content : String) (tool_call_id : String)
deriving DecidableEq, Repr

/-- Embedding of `OpenAIChatClient._convertMessages` (openai-chat-client.ts,
lines 68-127). -/
def OpenAIChatClient.convertMessages (messages : List Message) : List CReqMessage :=
  messages.foldl
    (fun (acc : List CReqMessage) msg =>
      match msg.role with
      | .system => acc ++ [.sys msg.content]
      | .user => acc ++ [.usr msg.content]
      | .assistant =>
          match msg.toolCalls with
          | some tcs =>
              if tcs.length > 0 then
                acc ++ [.asstToolCalls
                  (if strTruthy msg.content then some msg.content else none)
                  (tcs.map (fun tc =>
                    { id := tc.callId, function_name := tc.function.name,
                      function_arguments := argsJson tc.function.arguments }))]
              else acc ++ [.asstPlain msg.content]
          | none => acc ++ [.asstPlain msg.content]
      | .tool => acc ++ [.toolMsg msg.content (msg.callId.getD "")])
    []

/-- The `tool_calls[].id` values of an encoded Chat request, in order. -/
def chatToolCallIds (reqs : List CReqMessage) : List String :=
  (reqs.map (fun r =>
    match r with
    | .asstToolCalls _ tcs => tcs.map (fun tc => tc.id)
    | _ => [])).flatten

/-! ## Predicates used by the statements -/

/-- The first message exists and has role `system`. -/
def headIsSystem : List Message → Bool
  | [] => false
  | m :: _ => decide (m.role = .system)

/-- No two adjacent messages are both assistant-role. -/
def noAdjAssist : List Message → Bool
  | a :: b :: rest =>
      (!(decide (a.role = .assistant) && decide (b.role = .assistant))) &&
        noAdjAssist (b :: rest)
  | _ => true

/-- The list is nonempty and its last message is not assistant-role. -/
def lastNotAssistant (ms : List Message) : Bool :=
  match ms.getLast? with
  | some m => decide (m.role ≠ .assistant)
  | none => false

/-- Shape of the message lists the loop starts a step from: nonempty with a
system head, no adjacent assistant turns, and not ending in an assistant
turn. -/
def goodMsgs (ms : List Message) : Bool :=
  headIsSystem ms && noAdjAssist ms && lastNotAssistant ms

/-- The last message exists and is not assistant-role. -/
def lastRoleOK (ms : List Message) : Prop :=
  ∃ m, ms.getLast? = some m ∧ m.role ≠ .assistant

/-- The adapter contract of spec 4.2.5: a decoded response never carries an
empty `toolCalls` list (absent tool calls are `null`).  All four embedded
decoders satisfy it. -/
def LLMContract (cfg : RunConfig) : Prop :=
  ∀ n ms r, cfg.gen n ms = .ok r → r.toolCalls ≠ some []

/-- Invariant carried across one loop step: a `done` whose outcome is the
cleanup cancellation ends in a non-assistant message, and a `next`
re-establishes the loop shape of the message list. -/
def StepInv : StepResult → Prop
  | .done _ out st2 => out = .cancelledCleanup → lastRoleOK st2.messages
  | .next _ st2 => goodMsgs st2.messages = true

/-- Invariant carried through the tool-dispatch phase: an early-cancelled
dispatch ends in a non-assistant message; a completed one keeps the list
shape and, when at least one call ran, ends in the last tool message. -/
def ExecInv (tcs : List ToolCall) (st : AgentState)
    (r : List Action × Option RunOutcome × AgentState) : Prop :=
  match r with
  | (_, some _, st2) => lastRoleOK st2.messages
  | (_, none, st2) =>
      headIsSystem st2.messages = true ∧ noAdjAssist st2.messages = true ∧
      (tcs = [] → st2 = st) ∧
      (tcs ≠ [] → lastNotAssistant st2.messages = true)

/-- The claim's bracketing property on a trace: every `toolResult` event is
preceded by the `toolCall` event of the same tool call, with the append of
the corresponding tool-role message strictly between the two events. -/
def pairBoundsAppend (tr : List Action) : Bool :=
  (List.range tr.length).all fun j =>
    match tr[j]? with
    | some (.event (.toolResult tc _)) =>
        (List.range j).any fun i =>
          match tr[i]? with
          | some (.event (.toolCall tc')) =>
              decide (tc' = tc) &&
              ((List.range j).any fun k =>
                decide (i < k) &&
                match tr[k]? with
                | some (.append m) =>
                    decide (m.role = .tool) && decide (m.callId = some tc.callId)
                | _ => false)
          | _ => false
    | _ => true

/-- The actual bracketing property of the loop: every `toolResult` event is
preceded by its `toolCall` event and immediately followed by the append of
the corresponding tool-role message. -/
def toolEventsWellBracketed (tr : List Action) : Prop :=
  ∀ j tc r, tr[j]? = some (.event (.toolResult tc r)) →
    (∃ i, i < j ∧ tr[i]? = some (.event (.toolCall tc))) ∧
    tr[j+1]? = some (.append (toolMessageOf tc r))

/-! ## Concrete objects for counterexamples and witnesses -/

/-- An LLM client that replays a fixed script of responses by call index
and throws once the script is exhausted. -/
def scriptGen (script : List LLMResponse) :
    Nat → List Message → Except Unit LLMResponse :=
  fun n _ =>
    match script[n]? with
    | some r => .ok r
    | none => .error ()

/-- A tool call used in concrete runs. -/
def tcEcho : ToolCall := { callId := "c1", function := { name := "echo", arguments := [] } }

/-- A tool that succeeds with a fixed output. -/
def echoTool : ToolImpl :=
  { name := "echo",
    execute := fun _ => .ok { success := true, content := "out", error := none } }

/-- A tool whose `execute` throws a `TypeError`. -/
def throwingTool : ToolImpl :=
  { name := "mytool",
    execute := fun _ => .error (.errObj "TypeError" "boom" (some "st")) }

/-- Concrete run configuration: one tool-calling turn, then a final turn. -/
def cfgToolRun : RunConfig :=
  { gen := scriptGen
      [{ content := "", toolCalls := some [tcEcho] }, { content := "done" }],
    tools := [echoTool], tokenLimit := 100000, ct := String.length,
    abortAt := none }

/-- Concrete initial message list. -/
def msgsSU : List Message := initMessages "S" ["hi"]

/-- The `(callId, id)` pairs of a decoded response's tool calls. -/
def canonCallIdPairs (r : LLMResponseJS) : List (String × Option String) :=
  match r.toolCalls.toOption with
  | some l => l.map (fun tc => (tc.callId, tc.id))
  | none => []

/-- The ids of a decoded response's reasoning items. -/
def canonReasoningIds (r : LLMResponseJS) : List String :=
  match r.reasoningItems.toOption with
  | some l => l.map (fun ri => ri.id)
  | none => []

/-- A minimal Anthropic response. -/
def respA0 : AnthropicResponse := { content := [], stop_reason := none, usage := none }

/-- A minimal Gemini response. -/
def respG0 : GeminiResponse :=
  { candidates := none, usageMetadata := none, responseId := none }

/-- A four-round conversation (system message plus four user turns, each
answered by an assistant message). -/
def msgs4 : List Message :=
  [{ role := .system, content := "S" },
   { role := .user, content := "a" }, { role := .assistant, content := "ra" },
   { role := .user, content := "b" }, { role := .assistant, content := "rb" },
   { role := .user, content := "c" }, { role := .assistant, content := "rc" },
   { role := .user, content := "d" }, { role := .assistant, content := "rd" }]

/-- A run configuration whose signal is already aborted at entry. -/
def cfgAborted : RunConfig :=
  { gen := scriptGen [], tools := [], tokenLimit := 0, ct := fun _ => 1,
    abortAt := some 0 }

/-- A run configuration whose first response carries an empty (non-null)
`toolCalls` array. -/
def cfgEmptyToolCalls : RunConfig :=
  { gen := scriptGen
      [{ content := "hello", toolCalls := some [] }, { content := "done" }],
    tools := [], tokenLimit := 100000, ct := fun _ => 1, abortAt := none }

/-! # Theorems -/

/-- Claim C1, counterexample: for a tool named `mytool` whose `execute`
throws a `TypeError` with message `boom` and stack `st`, the executor's
error text is `Tool execution failed: TypeError: boom...` — the thrown
error's name, not the invoked tool's name `mytool` as the claim states. -/
theorem executeTool_errorName_counterexample :
    executeTool [throwingTool] "mytool" [] =
      { success := false, content := "",
        error := some "Tool execution failed: TypeError: boom\n\nTraceback:\nst" } ∧
    executeTool [throwingTool] "mytool" [] ≠
      { success := false, content := "",
        error := some "Tool execution failed: mytool: boom\n\nTraceback:\nst" } := by
  constructor
  · decide
  · decide

/-- Claim C1 (amended): `executeTool` never propagates an exception.  With
no matching tool it returns the `Unknown tool: {name}` failure; when the
matched tool's `execute` throws it returns the
`Tool execution failed: {errName}: {message}` failure, where `{errName}` is
the thrown error's own name (defaulting to `Error` when empty), and the
traceback is the error's stack (empty when absent); a `ToolResult` the tool
itself returns — including a failed one — is returned verbatim. -/
theorem executeTool_spec (tools : List ToolImpl) (functionName : String)
    (functionArgs : Args) :
    (tools.find? (fun t => t.name = functionName) = none →
      executeTool tools functionName functionArgs =
        { success := false, content := "",
          error := some ("Unknown tool: " ++ functionName) }) ∧
    (∀ tool r, tools.find? (fun t => t.name = functionName) = some tool →
      tool.execute functionArgs = .ok r →
      executeTool tools functionName functionArgs = r) ∧
    (∀ tool e, tools.find? (fun t => t.name = functionName) = some tool →
      tool.execute functionArgs = .error e →
      executeTool tools functionName functionArgs =
        { success := false, content := "",
          error := some ("Tool execution failed: " ++
            (if e.normalize.1 = "" then "Error" else e.normalize.1) ++ ": " ++
            e.normalize.2.1 ++ "\n\nTraceback:\n" ++ jsOrStr e.normalize.2.2 "") }) := by
  refine ⟨?_, ?_, ?_⟩
  · intro h
    unfold executeTool
    rw [h]
  · intro tool r hf he
    simp [executeTool, hf, he]
  · intro tool e hf he
    simp [executeTool, hf, he, String.append_assoc]

/-- Witness for `executeTool_spec`: the throw branch at a concrete tool. -/
theorem executeTool_spec_witness :
    executeTool [throwingTool] "mytool" [] =
      { success := false, content := "",
        error := some "Tool execution failed: TypeError: boom\n\nTraceback:\nst" } :=
  ((executeTool_spec [throwingTool] "mytool" []).2.2 throwingTool
    (.errObj "TypeError" "boom" (some "st")) rfl rfl).trans (by decide)

/-! ## Summarizer theorems -/

/-- If no message after index 0 has role user, the round partition is
empty. -/
theorem roundStarts_nil (ms : List Message)
    (h : (ms.drop 1).all (fun m => decide (m.role ≠ .user)) = true) :
    roundStarts ms = [] := by
  unfold roundStarts
  rw [List.filter_eq_nil_iff]
  intro i hi
  rw [List.mem_range] at hi
  cases i with
  | zero => simp
  | succ k =>
      cases hm : ms[k + 1]? with
      | none => simp [hm]
      | some m =>
          have hd : (ms.drop 1)[k]? = some m := by
            rw [List.getElem?_drop]
            simpa [Nat.add_comm] using hm
          have hmem : m ∈ ms.drop 1 := List.mem_iff_getElem?.mpr ⟨k, hd⟩
          have := List.all_eq_true.mp h m hmem
          simp only [decide_eq_true_eq] at this
          simp [hm, this]

/-- Claim C9: with no user-role message after index 0, `summarizeMessages`
performs no compression and no LLM call — null event, list unchanged — even
when the token estimate or the API token count exceeds the limit and the
debounce flag is clear. -/
theorem summarize_noUserRounds (ct : String → Nat)
    (llm : List Message → Except Unit LLMResponse) (p : SummarizeParams)
    (h : (p.messages.drop 1).all (fun m => decide (m.role ≠ .user)) = true) :
    (summarizeMessages ct llm p).event = none ∧
    (summarizeMessages ct llm p).messages = p.messages ∧
    (summarizeMessages ct llm p).llmCalls = 0 := by
  have hs := roundStarts_nil p.messages h
  unfold summarizeMessages
  split
  · exact ⟨rfl, rfl, rfl⟩
  · simp only [hs, List.length_nil]
    split
    · exact ⟨rfl, rfl, rfl⟩
    · simp

/-- Witness for `summarize_noUserRounds`: an over-limit two-message list
with an assistant (not user) second message. -/
theorem summarize_noUserRounds_witness :
    let p : SummarizeParams :=
      { messages :=
          [{ role := .system, content := "S" }, { role := .assistant, content := "A" }],
        tokenLimit := 0, apiTotalTokens := 0, skipNextTokenCheck := false }
    let llm : List Message → Except Unit LLMResponse := fun _ => .ok { content := "SUM" }
    (summarizeMessages (fun _ => 1) llm p).event = none ∧
    (summarizeMessages (fun _ => 1) llm p).messages = p.messages ∧
    (summarizeMessages (fun _ => 1) llm p).llmCalls = 0 :=
  summarize_noUserRounds (fun _ => 1) _ _ (by decide)

/-- A failed LLM call (throw or blank text) makes `createBatchSummary`
return `none`. -/
theorem createBatchSummary_fail (llm : List Message → Except Unit LLMResponse)
    (mtc : List Message) (es : Option String)
    (h : llm (summarizeProbe mtc es) = .error () ∨
      ∃ r, llm (summarizeProbe mtc es) = .ok r ∧ r.content.trim = "") :
    createBatchSummary llm mtc es = none := by
  unfold createBatchSummary
  rcases h with h | ⟨r, h, ht⟩
  · rw [h]
  · rw [h]
    simp [ht]

/-- Claim C3: when a message list over the token limit reaches the
compression attempt and the summarizer's LLM call throws or returns
whitespace-only text, `summarizeMessages` returns the input messages
unchanged, a null event, and the debounce flag set. -/
theorem summarize_failure_swallowed (ct : String → Nat)
    (llm : List Message → Except Unit LLMResponse) (p : SummarizeParams)
    (h0 : p.skipNextTokenCheck = false)
    (h1 : estimateTokens ct p.messages > p.tokenLimit ∨
      p.apiTotalTokens > p.tokenLimit)
    (h2 : RETAINED_ROUNDS < (roundStarts p.messages).length)
    (h3 : (compressionInputs p.messages).1 ≠ [])
    (h4 : llm (summarizeProbe (compressionInputs p.messages).1
            (compressionInputs p.messages).2) = .error () ∨
      ∃ r, llm (summarizeProbe (compressionInputs p.messages).1
            (compressionInputs p.messages).2) = .ok r ∧ r.content.trim = "") :
    summarizeMessages ct llm p =
      { event := none, messages := p.messages,
        skipNextTokenCheck := true, llmCalls := 1 } := by
  have hcbs := createBatchSummary_fail llm _ _ h4
  have h2' : 3 < (roundStarts p.messages).length := h2
  have h3' : (compressionInputs p.messages).1.length ≠ 0 := by
    simpa [List.length_eq_zero] using h3
  unfold summarizeMessages
  rw [h0]
  simp only [Bool.false_eq_true, if_false, if_neg (not_not_intro h1),
    if_neg (show ¬((roundStarts p.messages).length = 0) by omega),
    if_neg (show ¬((roundStarts p.messages).length ≤ RETAINED_ROUNDS) from
      show ¬((roundStarts p.messages).length ≤ 3) by omega),
    if_neg h3', hcbs]

/-- Witness for `summarize_failure_swallowed`: four rounds over a zero
token limit with a throwing summarizer LLM. -/
theorem summarize_failure_swallowed_witness :
    summarizeMessages (fun _ => 1) (fun _ => .error ())
      { messages := msgs4, tokenLimit := 0, apiTotalTokens := 0,
        skipNextTokenCheck := false } =
      { event := none, messages := msgs4, skipNextTokenCheck := true, llmCalls := 1 } :=
  summarize_failure_swallowed (fun _ => 1) (fun _ => .error ())
    { messages := msgs4, tokenLimit := 0, apiTotalTokens := 0,
      skipNextTokenCheck := false }
    rfl (.inl (by decide)) (by decide) (by decide) (.inl rfl)

/-- Either `summarizeMessages` reports no event, or it performed a
compression and the full result is determined: summary text from
`createBatchSummary`, rebuilt message list, `summarized` event, debounce
flag set. -/
theorem summarizeMessages_cases (ct : String → Nat)
    (llm : List Message → Except Unit LLMResponse) (p : SummarizeParams) :
    (summarizeMessages ct llm p).event = none ∨
    (RETAINED_ROUNDS < (roundStarts p.messages).length ∧
      ∃ summaryText,
        createBatchSummary llm (compressionInputs p.messages).1
          (compressionInputs p.messages).2 = some summaryText ∧
        summarizeMessages ct llm p =
          { event := some (.summarized (estimateTokens ct p.messages)
              (estimateTokens ct (p.messages.take 1 ++ [summaryMessage summaryText] ++
                p.messages.drop (retainStartIndexOf p.messages)))),
            messages := p.messages.take 1 ++ [summaryMessage summaryText] ++
              p.messages.drop (retainStartIndexOf p.messages),
            skipNextTokenCheck := true, llmCalls := 1 }) := by
  simp only [summarizeMessages]
  split
  · exact Or.inl rfl
  · split
    · exact Or.inl rfl
    · split
      · exact Or.inl rfl
      · split
        · exact Or.inl rfl
        · split
          · exact Or.inl rfl
          · rcases hc : createBatchSummary llm (compressionInputs p.messages).1
                (compressionInputs p.messages).2 with _ | s
            · exact Or.inl rfl
            · exact Or.inr ⟨by omega, s, rfl, rfl⟩

/-- A round-start index is a valid index of the list, at least 1. -/
theorem roundStarts_mem (ms : List Message) (x : Nat) (hx : x ∈ roundStarts ms) :
    1 ≤ x ∧ x < ms.length := by
  unfold roundStarts at hx
  have hr := List.mem_of_mem_filter hx
  have hp := List.of_mem_filter hx
  rw [List.mem_range] at hr
  simp only [Bool.and_eq_true, decide_eq_true_eq] at hp
  exact ⟨hp.1, hr⟩

/-- Claim C2: whenever `summarizeMessages` reports an event, a compression
happened and the result list is exactly the original head message, one
summary message (role user, prefixed content), then the retained suffix
starting at the first retained round; the event is `summarized` with the
pre- and post-compression estimates; the debounce flag is set; and the
message at index 0 is preserved. -/
theorem summarize_compression_shape (ct : String → Nat)
    (llm : List Message → Except Unit LLMResponse) (p : SummarizeParams)
    (ev : AgentEvent) (h : (summarizeMessages ct llm p).event = some ev) :
    ∃ summaryText,
      createBatchSummary llm (compressionInputs p.messages).1
        (compressionInputs p.messages).2 = some summaryText ∧
      (summarizeMessages ct llm p).messages =
        p.messages.take 1 ++ [summaryMessage summaryText] ++
          p.messages.drop (retainStartIndexOf p.messages) ∧
      (summarizeMessages ct llm p).messages[0]? = p.messages[0]? ∧
      ev = .summarized (estimateTokens ct p.messages)
        (estimateTokens ct (summarizeMessages ct llm p).messages) ∧
      (summarizeMessages ct llm p).skipNextTokenCheck = true := by
  rcases summarizeMessages_cases ct llm p with hn | ⟨hlen, s, hc, heq⟩
  · rw [hn] at h
    exact absurd h (by simp)
  · have hne : p.messages ≠ [] := by
      intro hnil
      rw [hnil] at hlen
      simp [roundStarts, RETAINED_ROUNDS] at hlen
    refine ⟨s, hc, ?_, ?_, ?_, ?_⟩
    · rw [heq]
    · obtain ⟨m0, rest, hms⟩ := List.exists_cons_of_ne_nil hne
      rw [heq, hms]
      simp
    · rw [heq] at h ⊢
      simp only at h
      exact (Option.some_injective _ h).symm
    · rw [heq]

/-- Witness for `summarize_compression_shape`: a four-round conversation
over a zero token limit whose summarizer LLM returns `SUM`. -/
theorem summarize_compression_shape_witness :
    ∃ summaryText,
      createBatchSummary (fun _ => .ok { content := "SUM" })
        (compressionInputs msgs4).1 (compressionInputs msgs4).2 = some summaryText ∧
      (summarizeMessages (fun _ => 1) (fun _ => .ok { content := "SUM" })
        { messages := msgs4, tokenLimit := 0, apiTotalTokens := 0,
          skipNextTokenCheck := false }).messages =
        msgs4.take 1 ++ [summaryMessage summaryText] ++
          msgs4.drop (retainStartIndexOf msgs4) ∧
      (summarizeMessages (fun _ => 1) (fun _ => .ok { content := "SUM" })
        { messages := msgs4, tokenLimit := 0, apiTotalTokens := 0,
          skipNextTokenCheck := false }).messages[0]? = msgs4[0]? ∧
      AgentEvent.summarized 45 40 = .summarized (estimateTokens (fun _ => 1) msgs4)
        (estimateTokens (fun _ => 1)
          (summarizeMessages (fun _ => 1) (fun _ => .ok { content := "SUM" })
            { messages := msgs4, tokenLimit := 0, apiTotalTokens := 0,
              skipNextTokenCheck := false }).messages) ∧
      (summarizeMessages (fun _ => 1) (fun _ => .ok { content := "SUM" })
        { messages := msgs4, tokenLimit := 0, apiTotalTokens := 0,
          skipNextTokenCheck := false }).skipNextTokenCheck = true :=
  summarize_compression_shape (fun _ => 1) (fun _ => .ok { content := "SUM" })
    { messages := msgs4, tokenLimit := 0, apiTotalTokens := 0,
      skipNextTokenCheck := false }
    (.summarized 45 40) (by
      have ht : "SUM".trim = "SUM" := by
        simp only [String.trim, Substring.trim, String.toSubstring]
        unfold Substring.takeWhileAux Substring.takeRightWhileAux
        decide
      simp only [summarizeMessages, createBatchSummary, ht]
      decide)

/-! ## Cancellation and loop theorems -/

/-- Claim C5: with a signal already aborted at `run` entry, the run yields
exactly one event — `cancelled` — returns `Task cancelled by user.`, and
never invokes the LLM client's `generate` (neither the loop nor the
summarizer). -/
theorem run_abortedAtEntry (cfg : RunConfig) (ms : List Message)
    (h : cfg.abortAt = some 0) :
    (run cfg ms).1 = [.event .cancelled] ∧
    (run cfg ms).2.1 = .cancelledCleanup ∧
    returnValue (run cfg ms).2.1 = some "Task cancelled by user." ∧
    Action.llmCall ∉ (run cfg ms).1 := by
  have hrun : run cfg ms =
      ([.event .cancelled], .cancelledCleanup,
        { messages := cleanupIncompleteMessages ms, apiTotalTokens := 0,
          skipNextTokenCheck := false, pollIdx := 1, callIdx := 0 }) := by
    unfold run maxSteps
    simp [runLoop, runStep, observeAborted, initialState, h]
  rw [hrun]
  refine ⟨rfl, rfl, rfl, ?_⟩
  simp

/-- Witness for `run_abortedAtEntry`: an aborted-at-entry configuration. -/
theorem run_abortedAtEntry_witness :
    (run cfgAborted msgsSU).1 = [.event .cancelled] ∧
    (run cfgAborted msgsSU).2.1 = .cancelledCleanup ∧
    returnValue (run cfgAborted msgsSU).2.1 = some "Task cancelled by user." ∧
    Action.llmCall ∉ (run cfgAborted msgsSU).1 :=
  run_abortedAtEntry cfgAborted msgsSU rfl

/-! ## Adapter decode theorems -/

/-- Claim C7, counterexample: the Anthropic decoder's object literal omits
(`undefined`) `reasoningItems` and `responseId`, and the Gemini decoder's
omits `reasoningItems`; the decoded record is not fully populated with
`null`s as the claim states. -/
theorem parseResponse_fullyPopulated_counterexample :
    (AnthropicClient.parseResponse respA0).fullyPopulated = false ∧
    (AnthropicClient.parseResponse respA0).reasoningItems = JOpt.undef ∧
    (AnthropicClient.parseResponse respA0).responseId = JOpt.undef ∧
    (GeminiClient.parseResponse 0 respG0).reasoningItems = JOpt.undef := by
  refine ⟨?_, ?_, ?_, ?_⟩ <;> decide

/-- Claim C7 (amended): the Responses and Chat Completions decoders return
fully populated records (every canonical field present, absent values as
`null`); the Anthropic decoder sets every canonical field except
`reasoningItems` and `responseId`, which it leaves undefined; the Gemini
decoder sets every canonical field except `reasoningItems`, which it leaves
undefined. -/
theorem parseResponse_population (wr : ResponsesResponse) (wc : ChatResponse)
    (wa : AnthropicResponse) (now : Nat) (wg : GeminiResponse) :
    (OpenAIClient.parseResponse wr).fullyPopulated = true ∧
    (OpenAIChatClient.parseResponse wc).fullyPopulated = true ∧
    ((AnthropicClient.parseResponse wa).content ≠ JOpt.undef ∧
      (AnthropicClient.parseResponse wa).thinking ≠ JOpt.undef ∧
      (AnthropicClient.parseResponse wa).toolCalls ≠ JOpt.undef ∧
      (AnthropicClient.parseResponse wa).finishReason ≠ JOpt.undef ∧
      (AnthropicClient.parseResponse wa).usage ≠ JOpt.undef ∧
      (AnthropicClient.parseResponse wa).reasoningItems = JOpt.undef ∧
      (AnthropicClient.parseResponse wa).responseId = JOpt.undef) ∧
    ((GeminiClient.parseResponse now wg).content ≠ JOpt.undef ∧
      (GeminiClient.parseResponse now wg).thinking ≠ JOpt.undef ∧
      (GeminiClient.parseResponse now wg).toolCalls ≠ JOpt.undef ∧
      (GeminiClient.parseResponse now wg).finishReason ≠ JOpt.undef ∧
      (GeminiClient.parseResponse now wg).usage ≠ JOpt.undef ∧
      (GeminiClient.parseResponse now wg).responseId ≠ JOpt.undef ∧
      (GeminiClient.parseResponse now wg).reasoningItems = JOpt.undef) := by
  refine ⟨?_, ?_, ?_, ?_⟩
  · unfold OpenAIClient.parseResponse LLMResponseJS.fullyPopulated
    simp only [Bool.and_eq_true, decide_eq_true_eq, ne_eq]
    refine ⟨⟨⟨⟨⟨⟨?_, ?_⟩, ?_⟩, ?_⟩, ?_⟩, ?_⟩, ?_⟩ <;>
      first
        | exact fun hx => JOpt.noConfusion hx
        | (split <;> exact fun hx => JOpt.noConfusion hx)
  · unfold OpenAIChatClient.parseResponse LLMResponseJS.fullyPopulated
    simp only [Bool.and_eq_true, decide_eq_true_eq, ne_eq]
    refine ⟨⟨⟨⟨⟨⟨?_, ?_⟩, ?_⟩, ?_⟩, ?_⟩, ?_⟩, ?_⟩ <;>
      first
        | exact fun hx => JOpt.noConfusion hx
        | (split <;> exact fun hx => JOpt.noConfusion hx)
  · unfold AnthropicClient.parseResponse
    refine ⟨?_, ?_, ?_, ?_, ?_, rfl, rfl⟩ <;> (try simp only []) <;>
      first
        | exact fun hx => JOpt.noConfusion hx
        | (split <;> exact fun hx => JOpt.noConfusion hx)
  · unfold GeminiClient.parseResponse
    refine ⟨?_, ?_, ?_, ?_, ?_, ?_, rfl⟩ <;> (try simp only []) <;>
      first
        | exact fun hx => JOpt.noConfusion hx
        | (split <;> exact fun hx => JOpt.noConfusion hx)

/-- Extracting `tool_use` ids from encoded `tool_use` blocks recovers the
`callId`s. -/
theorem anthropic_ids_of_toolUses (tcs : List ToolCall) :
    List.filterMap
      ((fun b =>
        match b with
        | ABlock.toolUse id _ _ => some id
        | _ => none) ∘
       fun tc => ABlock.toolUse tc.callId tc.function.name tc.function.arguments)
      tcs =
      tcs.map fun tc => tc.callId := by
  induction tcs with
  | nil => rfl
  | cons a l ih => simp [List.filterMap_cons, Function.comp, ih]

/-- Extracting `(call_id, id)` pairs from encoded `function_call` items
recovers the `callId`/`id` pairs. -/
theorem responses_ids_of_functionCalls (tcs : List ToolCall) :
    List.filterMap
      ((fun it =>
        match it with
        | RInputItem.functionCall _ _ call_id id => some (call_id, id)
        | _ => none) ∘
       fun tc =>
        RInputItem.functionCall tc.function.name (argsJson tc.function.arguments)
          tc.callId tc.id)
      tcs =
      tcs.map fun tc => (tc.callId, tc.id) := by
  induction tcs with
  | nil => rfl
  | cons a l ih => simp [List.filterMap_cons, Function.comp, ih]

/-- Extracting reasoning-item ids from encoded `reasoning` items recovers
their ids. -/
theorem responses_ids_of_reasoningItems (ris : List ReasoningItem) :
    List.filterMap
      ((fun it =>
        match it with
        | RInputItem.reasoningItem id _ => some id
        | _ => none) ∘
       fun ri => RInputItem.reasoningItem ri.id ri.summary)
      ris =
      ris.map fun ri => ri.id := by
  induction ris with
  | nil => rfl
  | cons a l ih => simp [List.filterMap_cons, Function.comp, ih]

/-- No `reasoning` items among encoded `function_call` items. -/
theorem responses_no_reasoning_of_functionCalls (tcs : List ToolCall) :
    List.filterMap
      ((fun it =>
        match it with
        | RInputItem.reasoningItem id _ => some id
        | _ => none) ∘
       fun tc =>
        RInputItem.functionCall tc.function.name (argsJson tc.function.arguments)
          tc.callId tc.id)
      tcs = [] := by
  induction tcs with
  | nil => rfl
  | cons a l ih => simp [List.filterMap_cons, Function.comp, ih]

/-- No `function_call` items among encoded `reasoning` items. -/
theorem responses_no_functionCall_of_reasoningItems (ris : List ReasoningItem) :
    List.filterMap
      ((fun it =>
        match it with
        | RInputItem.functionCall _ _ call_id id => some (call_id, id)
        | _ => none) ∘
       fun ri => RInputItem.reasoningItem ri.id ri.summary)
      ris = [] := by
  induction ris with
  | nil => rfl
  | cons a l ih => simp [List.filterMap_cons, Function.comp, ih]

/-- Extracting `functionCall` ids from encoded Gemini parts recovers the
`callId`s. -/
theorem gemini_ids_of_functionCalls (tcs : List ToolCall) :
    List.filterMap
      ((fun p =>
        match p with
        | GReqPart.functionCallP _ _ id => some id
        | _ => none) ∘
       fun tc =>
        GReqPart.functionCallP tc.function.name tc.function.arguments tc.callId)
      tcs =
      tcs.map fun tc => tc.callId := by
  induction tcs with
  | nil => rfl
  | cons a l ih => simp [List.filterMap_cons, Function.comp, ih]

/-- Extracting ids from encoded Chat tool calls recovers the `callId`s. -/
theorem chat_ids_of_toolCalls (tcs : List ToolCall) :
    tcs.map
      ((fun tc => tc.id) ∘
       fun tc =>
        ({ id := tc.callId, function_name := tc.function.name,
           function_arguments := argsJson tc.function.arguments } : CReqToolCall)) =
      tcs.map fun tc => tc.callId := by
  induction tcs with
  | nil => rfl
  | cons a l ih => simp [Function.comp, ih]

/-- Re-encoding a decoded assistant message for Anthropic emits exactly the
decoded `callId`s as `tool_use.id`s. -/
theorem anthropic_encode_callIds (r : LLMResponseJS) :
    anthropicToolUseIds
      (AnthropicClient.convertMessages [assistantMessageOf r]).2 =
      canonCallIds r := by
  unfold assistantMessageOf AnthropicClient.convertMessages anthropicToolUseIds canonCallIds
  rcases hT : r.toolCalls.toOption with _ | tcs <;>
    rcases hH : r.thinking.toOption with _ | t <;>
      simp [hT, hH, optStrTruthy, strTruthy, List.filterMap_append,
        anthropic_ids_of_toolUses] <;>
      split <;>
        simp_all [List.filterMap_append, anthropic_ids_of_toolUses]

/-- Re-encoding a decoded assistant message for the Responses API emits
exactly the decoded `(call_id, id)` pairs on `function_call` items and the
decoded reasoning-item ids on `reasoning` items. -/
theorem responses_encode_ids (r : LLMResponseJS) :
    responsesFunctionCallIds
      (OpenAIClient.convertMessages [assistantMessageOf r]).2 =
      canonCallIdPairs r ∧
    responsesReasoningIds
      (OpenAIClient.convertMessages [assistantMessageOf r]).2 =
      canonReasoningIds r := by
  unfold assistantMessageOf OpenAIClient.convertMessages responsesFunctionCallIds
    responsesReasoningIds canonCallIdPairs canonReasoningIds
  rcases hT : r.toolCalls.toOption with _ | tcs <;>
    rcases hR : r.reasoningItems.toOption with _ | ris <;>
      simp [hT, hR, strTruthy, List.filterMap_append,
        responses_ids_of_functionCalls, responses_ids_of_reasoningItems,
        responses_no_reasoning_of_functionCalls,
        responses_no_functionCall_of_reasoningItems]

/-- Re-encoding a decoded assistant message for Gemini emits exactly the
decoded `callId`s (including synthesized fallback ids) as
`functionCall.id`s. -/
theorem gemini_encode_callIds (r : LLMResponseJS) :
    geminiFunctionCallIds
      (GeminiClient.convertMessages [assistantMessageOf r]).2 =
      canonCallIds r := by
  unfold assistantMessageOf GeminiClient.convertMessages geminiFunctionCallIds canonCallIds
  rcases hT : r.toolCalls.toOption with _ | tcs <;>
    rcases hH : r.thinking.toOption with _ | t <;>
      simp [hT, hH, optStrTruthy, strTruthy, List.filterMap_append,
        gemini_ids_of_functionCalls]
  all_goals split <;> (try split) <;>
    simp_all [List.forall_mem_singleton, List.filterMap_append,
      gemini_ids_of_functionCalls]

/-- Re-encoding a decoded assistant message for Chat Completions emits
exactly the decoded `callId`s as `tool_calls[].id`s. -/
theorem chat_encode_callIds (r : LLMResponseJS) :
    chatToolCallIds (OpenAIChatClient.convertMessages [assistantMessageOf r]) =
      canonCallIds r := by
  unfold assistantMessageOf OpenAIChatClient.convertMessages chatToolCallIds canonCallIds
  rcases hT : r.toolCalls.toOption with _ | tcs <;>
    simp [hT, strTruthy, chat_ids_of_toolCalls] <;>
      (split <;> simp_all [chat_ids_of_toolCalls])

/-- Claim C6: for every provider response, decoding then re-encoding for the
same provider preserves every `ToolCall.callId` on the wire (as
`tool_use.id` for Anthropic, `tool_calls[].id` for Chat Completions,
`function_call.call_id` for Responses, `functionCall.id` for Gemini —
including Gemini's synthesized fallback ids), and the Responses adapter
additionally preserves every `ReasoningItem.id` and the item-level
`ToolCall.id`. -/
theorem adapters_roundtrip_ids :
    (∀ w : AnthropicResponse,
      anthropicToolUseIds
        (AnthropicClient.convertMessages
          [assistantMessageOf (AnthropicClient.parseResponse w)]).2 =
        canonCallIds (AnthropicClient.parseResponse w)) ∧
    (∀ w : ChatResponse,
      chatToolCallIds
        (OpenAIChatClient.convertMessages
          [assistantMessageOf (OpenAIChatClient.parseResponse w)]) =
        canonCallIds (OpenAIChatClient.parseResponse w)) ∧
    (∀ w : ResponsesResponse,
      responsesFunctionCallIds
        (OpenAIClient.convertMessages
          [assistantMessageOf (OpenAIClient.parseResponse w)]).2 =
        canonCallIdPairs (OpenAIClient.parseResponse w) ∧
      responsesReasoningIds
        (OpenAIClient.convertMessages
          [assistantMessageOf (OpenAIClient.parseResponse w)]).2 =
        canonReasoningIds (OpenAIClient.parseResponse w)) ∧
    (∀ (now : Nat) (w : GeminiResponse),
      geminiFunctionCallIds
        (GeminiClient.convertMessages
          [assistantMessageOf (GeminiClient.parseResponse now w)]).2 =
        canonCallIds (GeminiClient.parseResponse now w)) :=
  ⟨fun w => anthropic_encode_callIds (AnthropicClient.parseResponse w),
   fun w => chat_encode_callIds (OpenAIChatClient.parseResponse w),
   fun w => responses_encode_ids (OpenAIClient.parseResponse w),
   fun now w => gemini_encode_callIds (GeminiClient.parseResponse now w)⟩

/-! ## Agent-loop theorems -/

/-- The summarization phase only contributes LLM-call markers and
`summarized` events to the trace. -/
theorem summarizePhase_actions (cfg : RunConfig) (st : AgentState) :
    ∀ a ∈ (summarizePhase cfg st).1,
      a = Action.llmCall ∨ ∃ b af, a = Action.event (.summarized b af) := by
  intro a ha
  simp only [summarizePhase] at ha
  rcases summarizeMessages_cases cfg.ct (cfg.gen st.callIdx)
      { messages := st.messages, tokenLimit := cfg.tokenLimit,
        apiTotalTokens := st.apiTotalTokens,
        skipNextTokenCheck := st.skipNextTokenCheck } with hn | ⟨_, s, _, heq⟩
  · rw [hn] at ha
    simp only [List.append_nil, List.mem_append, List.mem_replicate] at ha
    exact Or.inl ha.2
  · rw [heq] at ha
    simp only [List.mem_append, List.mem_replicate, List.mem_singleton,
      List.replicate_one, List.mem_cons, List.not_mem_nil, or_false] at ha
    rcases ha with h | h
    · first
        | exact Or.inl h.2
        | exact Or.inl h
    · exact Or.inr ⟨_, _, h⟩

/-- An action of the common prefix survives into the step result built
around the tool-dispatch phase. -/
theorem mem_match_execToolCalls (cfg : RunConfig) (tcs : List ToolCall)
    (st0 : AgentState) (pre : List Action) (a : Action) (ha : a ∈ pre) :
    (match (match execToolCalls cfg tcs st0 with
            | (tr, some out, st3) => StepResult.done (pre ++ tr) out st3
            | (tr, none, st3) => StepResult.next (pre ++ tr) st3) with
     | .done tr _ _ => a ∈ tr
     | .next tr _ => a ∈ tr) := by
  rcases hex : execToolCalls cfg tcs st0 with ⟨tr, o, st3⟩
  rcases o with _ | o <;> simp only [] <;> exact List.mem_append_left _ ha

/-- With a never-aborting signal, every step of the loop invokes the LLM
client: the step trace contains an `llmCall` action. -/
theorem llmCall_mem_runStep (cfg : RunConfig) (st : AgentState)
    (hab : cfg.abortAt = none) :
    (match runStep cfg st with
     | .done tr _ _ => Action.llmCall ∈ tr
     | .next tr _ => Action.llmCall ∈ tr) := by
  unfold runStep observeAborted
  rw [hab]
  simp only [Bool.false_eq_true, if_false]
  rcases hg : cfg.gen (summarizePhase cfg { st with pollIdx := st.pollIdx + 1 }).2.callIdx
      (summarizePhase cfg { st with pollIdx := st.pollIdx + 1 }).2.messages with e | resp
  · simp
  · rcases htc : resp.toolCalls with _ | tcs
    · simp [htc]
    · simp only [htc]
      exact mem_match_execToolCalls cfg tcs _ _ _ (by simp)

/-- Claim C10: when the provider response carries an empty (non-null)
`toolCalls` array, the step is not treated as final: the loop appends the
assistant message but emits no `assistantMessage` event (even with
non-empty content), emits no tool events, returns no answer, and proceeds
to another step, whose trace contains the next provider call. -/
theorem run_emptyToolCalls_notFinal (cfg : RunConfig) (st : AgentState)
    (hab : cfg.abortAt = none) (resp : LLMResponse)
    (hgen : cfg.gen (summarizePhase cfg { st with pollIdx := st.pollIdx + 1 }).2.callIdx
      (summarizePhase cfg { st with pollIdx := st.pollIdx + 1 }).2.messages = .ok resp)
    (htc : resp.toolCalls = some []) :
    ∃ tr st2,
      runStep cfg st = .next tr st2 ∧
      (∀ c, Action.event (.assistantMessage c) ∉ tr) ∧
      (∀ tc, Action.event (.toolCall tc) ∉ tr) ∧
      (∀ tc res, Action.event (.toolResult tc res) ∉ tr) ∧
      st2.messages =
        (summarizePhase cfg { st with pollIdx := st.pollIdx + 1 }).2.messages ++
          [{ role := .assistant, content := resp.content, thinking := resp.thinking,
             reasoningItems := resp.reasoningItems, toolCalls := resp.toolCalls }] ∧
      (∀ fuel, (runLoop cfg (fuel + 1) st).1 = tr ++ (runLoop cfg fuel st2).1) ∧
      (∀ fuel, 0 < fuel → Action.llmCall ∈ (runLoop cfg fuel st2).1) := by
  have hstep : ∃ st2,
      runStep cfg st = .next
        ((summarizePhase cfg { st with pollIdx := st.pollIdx + 1 }).1 ++
          [Action.llmCall,
           Action.append
             { role := .assistant, content := resp.content, thinking := resp.thinking,
               reasoningItems := resp.reasoningItems, toolCalls := resp.toolCalls }] ++
          (if optStrTruthy resp.thinking then
            [Action.event (.thinking resp.thinking resp.content)]
          else []) ++ []) st2 ∧
      st2.messages =
        (summarizePhase cfg { st with pollIdx := st.pollIdx + 1 }).2.messages ++
          [{ role := .assistant, content := resp.content, thinking := resp.thinking,
             reasoningItems := resp.reasoningItems, toolCalls := resp.toolCalls }] := by
    unfold runStep observeAborted
    rw [hab]
    simp only [Bool.false_eq_true, if_false, hgen, htc, execToolCalls]
    refine ⟨_, rfl, ?_⟩
    rcases resp.usage with _ | u <;> rfl
  obtain ⟨st2, hs, hm⟩ := hstep
  refine ⟨_, st2, hs, ?_, ?_, ?_, hm, ?_, ?_⟩
  · intro c hc
    simp only [List.append_nil, List.mem_append, List.mem_cons, List.mem_singleton,
      List.not_mem_nil, or_false] at hc
    rcases hc with (hc | hc) | hc
    · rcases summarizePhase_actions cfg _ _ hc with h | ⟨b, af, h⟩ <;> simp at h
    · rcases hc with hc | hc <;> simp at hc
    · split at hc <;> simp at hc
  · intro tc hc
    simp only [List.append_nil, List.mem_append, List.mem_cons, List.mem_singleton,
      List.not_mem_nil, or_false] at hc
    rcases hc with (hc | hc) | hc
    · rcases summarizePhase_actions cfg _ _ hc with h | ⟨b, af, h⟩ <;> simp at h
    · rcases hc with hc | hc <;> simp at hc
    · split at hc <;> simp at hc
  · intro tc res hc
    simp only [List.append_nil, List.mem_append, List.mem_cons, List.mem_singleton,
      List.not_mem_nil, or_false] at hc
    rcases hc with (hc | hc) | hc
    · rcases summarizePhase_actions cfg _ _ hc with h | ⟨b, af, h⟩ <;> simp at h
    · rcases hc with hc | hc <;> simp at hc
    · split at hc <;> simp at hc
  · intro fuel
    simp only [runLoop, hs]
  · intro fuel hf
    rcases fuel with _ | k
    · exact absurd hf (by simp)
    · have h2 := llmCall_mem_runStep cfg st2 hab
      simp only [runLoop]
      rcases hr : runStep cfg st2 with ⟨tr3, out3, st3⟩ | ⟨tr3, st3⟩ <;>
        rw [hr] at h2 <;> simp only [hr] <;>
        first
          | simpa using h2
          | exact List.mem_append_left _ (by simpa using h2)

/-- Witness for `run_emptyToolCalls_notFinal`: a concrete configuration
whose first response has `toolCalls = []` and non-empty content. -/
theorem run_emptyToolCalls_notFinal_witness :
    ∃ tr st2,
      runStep cfgEmptyToolCalls (initialState msgsSU) = .next tr st2 ∧
      (∀ c, Action.event (.assistantMessage c) ∉ tr) ∧
      (∀ tc, Action.event (.toolCall tc) ∉ tr) ∧
      (∀ tc res, Action.event (.toolResult tc res) ∉ tr) ∧
      st2.messages =
        (summarizePhase cfgEmptyToolCalls
          { initialState msgsSU with
            pollIdx := (initialState msgsSU).pollIdx + 1 }).2.messages ++
          [{ role := .assistant, content := "hello", thinking := none,
             reasoningItems := none, toolCalls := some [] }] ∧
      (∀ fuel, (runLoop cfgEmptyToolCalls (fuel + 1) (initialState msgsSU)).1 =
        tr ++ (runLoop cfgEmptyToolCalls fuel st2).1) ∧
      (∀ fuel, 0 < fuel →
        Action.llmCall ∈ (runLoop cfgEmptyToolCalls fuel st2).1) :=
  run_emptyToolCalls_notFinal cfgEmptyToolCalls (initialState msgsSU) rfl
    { content := "hello", toolCalls := some [] } rfl rfl

/-- Bracketing is preserved by concatenation. -/
theorem twb_append (t1 t2 : List Action)
    (h1 : toolEventsWellBracketed t1) (h2 : toolEventsWellBracketed t2) :
    toolEventsWellBracketed (t1 ++ t2) := by
  intro j tc r hj
  by_cases hlt : j < t1.length
  · rw [List.getElem?_append_left hlt] at hj
    obtain ⟨⟨i, hij, hi⟩, hnext⟩ := h1 j tc r hj
    have hi_lt : i < t1.length := by
      by_contra hcon
      rw [List.getElem?_eq_none (by omega)] at hi
      exact Option.noConfusion hi
    have hnext_lt : j + 1 < t1.length := by
      by_contra hcon
      rw [List.getElem?_eq_none (by omega)] at hnext
      exact Option.noConfusion hnext
    refine ⟨⟨i, hij, ?_⟩, ?_⟩
    · rw [List.getElem?_append_left hi_lt]; exact hi
    · rw [List.getElem?_append_left hnext_lt]; exact hnext
  · push_neg at hlt
    rw [List.getElem?_append_right hlt] at hj
    obtain ⟨⟨i, hij, hi⟩, hnext⟩ := h2 (j - t1.length) tc r hj
    refine ⟨⟨t1.length + i, by omega, ?_⟩, ?_⟩
    · rw [List.getElem?_append_right (by omega)]
      rw [Nat.add_sub_cancel_left]
      exact hi
    · rw [List.getElem?_append_right (by omega)]
      have heq : j + 1 - t1.length = (j - t1.length) + 1 := by omega
      rw [heq]
      exact hnext

/-- A trace without any `toolResult` event is trivially well bracketed. -/
theorem twb_of_actions (tr : List Action)
    (h : ∀ a ∈ tr, ∀ tc r, a ≠ Action.event (.toolResult tc r)) :
    toolEventsWellBracketed tr := by
  intro j tc r hj
  have hmem : Action.event (.toolResult tc r) ∈ tr :=
    List.mem_iff_getElem?.mpr ⟨j, hj⟩
  exact absurd rfl (h _ hmem tc r)

/-- The summarization phase emits no `toolResult` event. -/
theorem summarizePhase_no_toolResult (cfg : RunConfig) (st : AgentState) :
    ∀ a ∈ (summarizePhase cfg st).1, ∀ tc r,
      a ≠ Action.event (.toolResult tc r) := by
  intro a ha tc r
  rcases summarizePhase_actions cfg st a ha with h | ⟨b, af, h⟩ <;> subst h <;> simp

/-- One tool-call triple — `toolCall` event, `toolResult` event, append of
the tool message — followed by any `toolResult`-free tail is well
bracketed. -/
theorem twb_triple_append (tc0 : ToolCall) (res : ToolResult) (tail : List Action)
    (htail : ∀ a ∈ tail, ∀ tc r, a ≠ Action.event (.toolResult tc r)) :
    toolEventsWellBracketed
      ([.event (.toolCall tc0), .event (.toolResult tc0 res),
        .append (toolMessageOf tc0 res)] ++ tail) := by
  intro j tc r hj
  rcases j with _ | _ | _ | j
  · simp at hj
  · simp at hj
    obtain ⟨h1, h2⟩ := hj
    subst h1
    subst h2
    exact ⟨⟨0, by omega, by simp⟩, by simp⟩
  · simp at hj
  · have heq : (([.event (.toolCall tc0), .event (.toolResult tc0 res),
        .append (toolMessageOf tc0 res)] ++ tail))[j + 3]? = tail[j]? := by
      simp
    rw [heq] at hj
    have hmem : Action.event (.toolResult tc r) ∈ tail :=
      List.mem_iff_getElem?.mpr ⟨j, hj⟩
    exact absurd rfl (htail _ hmem tc r)

/-- The tool-dispatch phase produces a well-bracketed trace. -/
theorem twb_execToolCalls (cfg : RunConfig) :
    ∀ (tcs : List ToolCall) (st : AgentState),
      toolEventsWellBracketed (execToolCalls cfg tcs st).1 := by
  intro tcs
  induction tcs with
  | nil =>
      intro st j tc r hj
      simp [execToolCalls] at hj
  | cons tc0 rest ih =>
      intro st
      unfold execToolCalls
      simp only []
      split
      · exact twb_triple_append tc0 _ [.event .cancelled] (by intro a ha tc r; simp at ha; simp [ha])
      · have h3 : toolEventsWellBracketed
            [.event (.toolCall tc0),
             .event (.toolResult tc0
               (executeTool cfg.tools tc0.function.name tc0.function.arguments)),
             .append (toolMessageOf tc0
               (executeTool cfg.tools tc0.function.name tc0.function.arguments))] := by
          simpa using twb_triple_append tc0
            (executeTool cfg.tools tc0.function.name tc0.function.arguments) [] (by simp)
        exact twb_append _ _ h3 (ih _)

/-- Bracketing of the step result built around the tool-dispatch phase. -/
theorem twb_match_exec (cfg : RunConfig) (tcs : List ToolCall) (st0 : AgentState)
    (pre : List Action) (hpre : toolEventsWellBracketed pre) :
    (match (match execToolCalls cfg tcs st0 with
            | (tr, some out, st3) => StepResult.done (pre ++ tr) out st3
            | (tr, none, st3) => StepResult.next (pre ++ tr) st3) with
     | .done tr _ _ => toolEventsWellBracketed tr
     | .next tr _ => toolEventsWellBracketed tr) := by
  have hP := twb_execToolCalls cfg tcs st0
  rcases hex : execToolCalls cfg tcs st0 with ⟨tr, o, st3⟩
  rw [hex] at hP
  rcases o with _ | o <;> simp only [] <;> exact twb_append _ _ hpre hP

/-- Bracketing of a step result behind a cancellation test. -/
theorem twb_ite (c : Prop) [Decidable c] (A B : StepResult)
    (hA : match A with
          | .done tr _ _ => toolEventsWellBracketed tr
          | .next tr _ => toolEventsWellBracketed tr)
    (hB : match B with
          | .done tr _ _ => toolEventsWellBracketed tr
          | .next tr _ => toolEventsWellBracketed tr) :
    (match (if c then A else B) with
     | .done tr _ _ => toolEventsWellBracketed tr
     | .next tr _ => toolEventsWellBracketed tr) := by
  by_cases hc : c
  · rw [if_pos hc]; exact hA
  · rw [if_neg hc]; exact hB

/-- One loop step produces a well-bracketed trace. -/
theorem twb_runStep (cfg : RunConfig) (st : AgentState) :
    (match runStep cfg st with
     | .done tr _ _ => toolEventsWellBracketed tr
     | .next tr _ => toolEventsWellBracketed tr) := by
  unfold runStep observeAborted
  apply twb_ite
  · refine twb_of_actions _ ?_
    intro a ha tc r
    simp at ha
    simp [ha]
  · apply twb_ite
    · refine twb_of_actions _ ?_
      intro a ha tc r
      rcases List.mem_append.mp ha with h | h
      · exact summarizePhase_no_toolResult cfg _ a h tc r
      · simp at h
        rcases h with h | h <;> simp [h]
    · rcases hg : cfg.gen
          (summarizePhase cfg { st with pollIdx := st.pollIdx + 1 }).2.callIdx
          (summarizePhase cfg { st with pollIdx := st.pollIdx + 1 }).2.messages
          with e | resp
      · apply twb_ite
        · refine twb_of_actions _ ?_
          intro a ha tc r
          rcases List.mem_append.mp ha with h | h
          · exact summarizePhase_no_toolResult cfg _ a h tc r
          · simp at h
            rcases h with h | h <;> simp [h]
        · refine twb_of_actions _ ?_
          intro a ha tc r
          rcases List.mem_append.mp ha with h | h
          · exact summarizePhase_no_toolResult cfg _ a h tc r
          · simp at h
            simp [h]
      · simp only []
        rcases htc : resp.toolCalls with _ | tcs
        · refine twb_of_actions _ ?_
          intro a ha tc r
          rcases List.mem_append.mp ha with h | h
          · rcases List.mem_append.mp h with h | h
            · rcases List.mem_append.mp h with h | h
              · exact summarizePhase_no_toolResult cfg _ a h tc r
              · simp at h
                rcases h with h | h <;> simp [h]
            · split at h <;> simp_all
          · split at h <;> simp_all
        · apply twb_ite
          · refine twb_of_actions _ ?_
            intro a ha tc r
            rcases List.mem_append.mp ha with h | h
            · rcases List.mem_append.mp h with h | h
              · rcases List.mem_append.mp h with h | h
                · exact summarizePhase_no_toolResult cfg _ a h tc r
                · simp at h
                  rcases h with h | h <;> simp [h]
              · split at h <;> simp_all
            · simp at h
              simp [h]
          · refine twb_match_exec cfg _ _ _ (twb_of_actions _ ?_)
            intro a ha tc r
            rcases List.mem_append.mp ha with h | h
            · rcases List.mem_append.mp h with h | h
              · exact summarizePhase_no_toolResult cfg _ a h tc r
              · simp at h
                rcases h with h | h <;> simp [h]
            · split at h <;> simp_all

/-- Claim C8 (amended): in every run, for each tool call the `toolCall`
event precedes the `toolResult` event with the same tool call, and the
corresponding tool-role message is appended immediately after the
`toolResult` event — after the pair, not between it. -/
theorem run_toolEvent_order (cfg : RunConfig) (fuel : Nat) (st : AgentState) :
    toolEventsWellBracketed (runLoop cfg fuel st).1 := by
  induction fuel generalizing st with
  | zero =>
      intro j tc r hj
      simp [runLoop] at hj
  | succ k ih =>
      have h1 := twb_runStep cfg st
      simp only [runLoop]
      rcases hr : runStep cfg st with ⟨tr, out, st2⟩ | ⟨tr, st2⟩ <;> rw [hr] at h1
      · exact h1
      · exact twb_append _ _ h1 (ih st2)

/-- Claim C8, counterexample: a concrete one-tool-call run.  Its trace is
listed in full: the append of the tool message sits immediately after the
`toolResult` event, so no append lies strictly between the `toolCall` and
`toolResult` events and the claimed bracketing predicate is false. -/
theorem pairBoundsAppend_counterexample :
    (run cfgToolRun msgsSU).1 =
      [Action.llmCall,
       .append { role := .assistant, content := "", thinking := none,
                 reasoningItems := none, toolCalls := some [tcEcho] },
       .event (.toolCall tcEcho),
       .event (.toolResult tcEcho { success := true, content := "out", error := none }),
       .append { role := .tool, content := "out", callId := some "c1",
                 name := some "echo" },
       Action.llmCall,
       .append { role := .assistant, content := "done" },
       .event (.assistantMessage "done")] ∧
    pairBoundsAppend (run cfgToolRun msgsSU).1 = false := by
  constructor
  · decide
  · decide

/-! ### Claim C4: cancellation cleanup and the trailing-role invariant -/

/-- When no assistant index is found, no message has assistant role. -/
theorem lastAssistantIdx_none_no_assist (ms : List Message)
    (h : lastAssistantIdx ms = none) : ∀ m ∈ ms, m.role ≠ .assistant := by
  induction ms with
  | nil => intro m hm; cases hm
  | cons a rest ih =>
      intro m hm
      simp only [lastAssistantIdx] at h
      rcases hr : lastAssistantIdx rest with _ | j
      · rw [hr] at h
        by_cases ha : a.role = .assistant
        · rw [if_pos ha] at h; exact Option.noConfusion h
        · rw [if_neg ha] at h
          rcases List.mem_cons.mp hm with rfl | hm
          · exact ha
          · exact ih hr m hm
      · rw [hr] at h
        exact Option.noConfusion h

/-- The index found by the backwards scan is the index of the last
assistant-role message. -/
theorem lastAssistantIdx_some_spec (ms : List Message) (i : Nat)
    (h : lastAssistantIdx ms = some i) :
    (∃ m, ms[i]? = some m ∧ m.role = .assistant) ∧
      ∀ j m, i < j → ms[j]? = some m → m.role ≠ .assistant := by
  induction ms generalizing i with
  | nil => exact Option.noConfusion h
  | cons a rest ih =>
      simp only [lastAssistantIdx] at h
      rcases hr : lastAssistantIdx rest with _ | k
      · rw [hr] at h
        by_cases ha : a.role = .assistant
        · rw [if_pos ha] at h
          injection h with h
          subst h
          refine ⟨⟨a, by simp, ha⟩, ?_⟩
          intro j m hj hm
          rcases j with _ | j
          · omega
          · exact lastAssistantIdx_none_no_assist rest hr m
              (List.mem_iff_getElem?.mpr ⟨j, by simpa using hm⟩)
        · rw [if_neg ha] at h
          exact Option.noConfusion h
      · rw [hr] at h
        injection h with h
        subst h
        obtain ⟨⟨m0, hm0, hm0a⟩, hafter⟩ := ih k hr
        refine ⟨⟨m0, by simpa using hm0, hm0a⟩, ?_⟩
        intro j m hj hm
        rcases j with _ | j
        · omega
        · exact hafter j m (by omega) (by simpa using hm)

/-- Two adjacent messages of a list satisfying `noAdjAssist` are never both
assistant-role. -/
theorem noAdjAssist_pair (ms : List Message) :
    ∀ j a b, noAdjAssist ms = true → ms[j]? = some a → ms[j + 1]? = some b →
      ¬(a.role = .assistant ∧ b.role = .assistant) := by
  induction ms with
  | nil => intro j a b _ ha; simp at ha
  | cons x rest ih =>
      intro j a b h ha hb
      rcases rest with _ | ⟨y, rest2⟩
      · rcases j with _ | j <;> simp at hb
      · rcases j with _ | j
        · simp only [List.getElem?_cons_zero, Option.some.injEq] at ha
          simp only [List.getElem?_cons_succ, List.getElem?_cons_zero,
            Option.some.injEq] at hb
          subst ha
          subst hb
          simp only [noAdjAssist, Bool.and_eq_true] at h
          rintro ⟨h1, h2⟩
          simp [h1, h2] at h
        · simp only [noAdjAssist, Bool.and_eq_true] at h
          exact ih j a b h.2 (by simpa using ha) (by simpa using hb)

/-- A non-assistant head can be prepended to any `noAdjAssist` list. -/
theorem noAdjAssist_cons_of_head (x : Message) (l : List Message)
    (hx : x.role ≠ .assistant) (hl : noAdjAssist l = true) :
    noAdjAssist (x :: l) = true := by
  cases l with
  | nil => rfl
  | cons b rest =>
      simp only [noAdjAssist, Bool.and_eq_true]
      exact ⟨by simp [hx], hl⟩

/-- `noAdjAssist` passes to the tail. -/
theorem noAdjAssist_tail (a : Message) (l : List Message)
    (h : noAdjAssist (a :: l) = true) : noAdjAssist l = true := by
  cases l with
  | nil => rfl
  | cons b rest =>
      simp only [noAdjAssist, Bool.and_eq_true] at h
      exact h.2

/-- `noAdjAssist` passes to any suffix. -/
theorem noAdjAssist_drop (n : Nat) (ms : List Message)
    (h : noAdjAssist ms = true) : noAdjAssist (ms.drop n) = true := by
  induction n generalizing ms with
  | zero => exact h
  | succ k ih =>
      cases ms with
      | nil => exact h
      | cons a rest => exact ih rest (noAdjAssist_tail a rest h)

/-- Appending one message preserves `noAdjAssist` when the junction pair is
not two assistant turns. -/
theorem noAdjAssist_append_single (ms : List Message) (x : Message)
    (h : noAdjAssist ms = true)
    (hj : ∀ m, ms.getLast? = some m →
      ¬(m.role = .assistant ∧ x.role = .assistant)) :
    noAdjAssist (ms ++ [x]) = true := by
  induction ms with
  | nil => rfl
  | cons a rest ih =>
      cases rest with
      | nil =>
          simp only [List.cons_append, List.nil_append, noAdjAssist,
            Bool.and_eq_true]
          refine ⟨?_, by trivial⟩
          have hja := hj a rfl
          by_cases ha : a.role = .assistant
          · by_cases hx : x.role = .assistant
            · exact absurd ⟨ha, hx⟩ hja
            · simp [hx]
          · simp [ha]
      | cons b rest2 =>
          simp only [List.cons_append] at ih ⊢
          simp only [noAdjAssist, Bool.and_eq_true] at h ⊢
          refine ⟨h.1, ?_⟩
          have hj2 : ∀ m, (b :: rest2).getLast? = some m →
              ¬(m.role = .assistant ∧ x.role = .assistant) := by
            intro m hm
            exact hj m (by rw [List.getLast?_cons_cons]; exact hm)
          have := ih h.2 hj2
          simpa using this

/-- A nonempty list with a system head. -/
theorem headIsSystem_shape (ms : List Message) (h : headIsSystem ms = true) :
    ∃ m0 rest, ms = m0 :: rest ∧ m0.role = .system := by
  cases ms with
  | nil => exact absurd h (by simp [headIsSystem])
  | cons a rest =>
      refine ⟨a, rest, rfl, ?_⟩
      simpa [headIsSystem] using h

/-- A system head survives appending on the right. -/
theorem headIsSystem_append (ms l : List Message) (h : headIsSystem ms = true) :
    headIsSystem (ms ++ l) = true := by
  cases ms with
  | nil => exact absurd h (by simp [headIsSystem])
  | cons a rest => simpa [headIsSystem] using h

/-- Dropping a strict prefix does not change the last element. -/
theorem getLast?_drop_of_lt (n : Nat) (ms : List Message) (hn : n < ms.length) :
    (ms.drop n).getLast? = ms.getLast? := by
  have hne : ms.drop n ≠ [] := by
    intro hnil
    rw [List.drop_eq_nil_iff] at hnil
    omega
  conv_rhs => rw [← List.take_append_drop n ms]
  rw [List.getLast?_append_of_ne_nil _ hne]

/-- A list ending in a non-assistant message satisfies `lastNotAssistant`. -/
theorem lastNotAssistant_append_single (ms : List Message) (x : Message)
    (hx : x.role ≠ .assistant) : lastNotAssistant (ms ++ [x]) = true := by
  simp [lastNotAssistant, List.getLast?_concat, hx]

/-- Reading `lastNotAssistant` back on the last element. -/
theorem lastNotAssistant_spec (ms : List Message) (m : Message)
    (h : lastNotAssistant ms = true) (hm : ms.getLast? = some m) :
    m.role ≠ .assistant := by
  simp only [lastNotAssistant, hm] at h
  exact of_decide_eq_true h

/-- The summarizer either leaves the message list unchanged or rebuilds it
as head, summary message, retained suffix. -/
theorem summarizeMessages_messages (ct : String → Nat)
    (llm : List Message → Except Unit LLMResponse) (p : SummarizeParams) :
    (summarizeMessages ct llm p).messages = p.messages ∨
    (RETAINED_ROUNDS < (roundStarts p.messages).length ∧
      ∃ s, (summarizeMessages ct llm p).messages =
        p.messages.take 1 ++ [summaryMessage s] ++
          p.messages.drop (retainStartIndexOf p.messages)) := by
  simp only [summarizeMessages]
  split
  · exact Or.inl rfl
  · split
    · exact Or.inl rfl
    · split
      · exact Or.inl rfl
      · split
        · exact Or.inl rfl
        · split
          · exact Or.inl rfl
          · rcases hc : createBatchSummary llm (compressionInputs p.messages).1
                (compressionInputs p.messages).2 with _ | s
            · exact Or.inl rfl
            · exact Or.inr ⟨by omega, s, rfl⟩

/-- The first retained round starts at a valid index past the head. -/
theorem retainStart_bounds (ms : List Message)
    (h : RETAINED_ROUNDS < (roundStarts ms).length) :
    1 ≤ retainStartIndexOf ms ∧ retainStartIndexOf ms < ms.length := by
  have hRR : RETAINED_ROUNDS = 3 := rfl
  have hlt : (roundStarts ms).length - RETAINED_ROUNDS < (roundStarts ms).length := by
    omega
  have hmem : retainStartIndexOf ms ∈ roundStarts ms := by
    simp only [retainStartIndexOf]
    rw [List.getD_eq_getElem?_getD, List.getElem?_eq_getElem hlt, Option.getD_some]
    exact List.getElem_mem hlt
  exact roundStarts_mem ms _ hmem

/-- Summarization preserves the loop shape of the message list. -/
theorem summarizeMessages_preserves_good (ct : String → Nat)
    (llm : List Message → Except Unit LLMResponse) (p : SummarizeParams)
    (hg : goodMsgs p.messages = true) :
    goodMsgs (summarizeMessages ct llm p).messages = true := by
  rcases summarizeMessages_messages ct llm p with h | ⟨hlen, s, h⟩
  · rw [h]; exact hg
  · rw [h]
    simp only [goodMsgs, Bool.and_eq_true] at hg
    obtain ⟨⟨hh, hna⟩, hla⟩ := hg
    obtain ⟨hr1, hr2⟩ := retainStart_bounds p.messages hlen
    obtain ⟨m0, rest, hms, hm0⟩ := headIsSystem_shape p.messages hh
    have hdropne : p.messages.drop (retainStartIndexOf p.messages) ≠ [] := by
      intro hnil
      rw [List.drop_eq_nil_iff] at hnil
      omega
    have htake : p.messages.take 1 = [m0] := by rw [hms]; rfl
    rw [htake]
    simp only [goodMsgs, Bool.and_eq_true]
    refine ⟨⟨?_, ?_⟩, ?_⟩
    · simp [headIsSystem, hm0]
    · have hd := noAdjAssist_drop (retainStartIndexOf p.messages) p.messages hna
      have hc1 : noAdjAssist (summaryMessage s ::
          p.messages.drop (retainStartIndexOf p.messages)) = true :=
        noAdjAssist_cons_of_head _ _ (by simp [summaryMessage]) hd
      have hc0 : noAdjAssist (m0 :: summaryMessage s ::
          p.messages.drop (retainStartIndexOf p.messages)) = true :=
        noAdjAssist_cons_of_head _ _ (by simp [hm0]) hc1
      simpa using hc0
    · have hgl : (([m0] ++ [summaryMessage s]) ++
          p.messages.drop (retainStartIndexOf p.messages)).getLast? =
          p.messages.getLast? := by
        rw [List.getLast?_append_of_ne_nil _ hdropne, getLast?_drop_of_lt _ _ hr2]
      simp only [lastNotAssistant] at hla ⊢
      rw [hgl]
      exact hla

/-- Cleanup of a loop-shaped list ends in a non-assistant message. -/
theorem cleanup_good (ms : List Message) (hh : headIsSystem ms = true)
    (hna : noAdjAssist ms = true) :
    lastRoleOK (cleanupIncompleteMessages ms) := by
  obtain ⟨m0, rest, hms, hm0⟩ := headIsSystem_shape ms hh
  rcases hl : lastAssistantIdx ms with _ | i
  · simp only [cleanupIncompleteMessages, hl]
    rcases hgl : ms.getLast? with _ | m
    · rw [List.getLast?_eq_none_iff] at hgl
      rw [hms] at hgl
      exact List.noConfusion hgl
    · exact ⟨m, hgl, lastAssistantIdx_none_no_assist ms hl m
        (List.mem_of_mem_getLast? hgl)⟩
  · simp only [cleanupIncompleteMessages, hl]
    obtain ⟨⟨ma, hma, hmaa⟩, _⟩ := lastAssistantIdx_some_spec ms i hl
    have hilen : i < ms.length := (List.getElem?_eq_some_iff.mp hma).1
    have hi1 : 1 ≤ i := by
      rcases Nat.eq_zero_or_pos i with rfl | h
      · exfalso
        rw [hms] at hma
        simp only [List.getElem?_cons_zero, Option.some.injEq] at hma
        rw [← hma, hm0] at hmaa
        exact Role.noConfusion hmaa
      · exact h
    have hlen : (ms.take i).length = i := by
      rw [List.length_take]
      omega
    have hgl : (ms.take i).getLast? = ms[i - 1]? := by
      rw [List.getLast?_eq_getElem?, hlen, List.getElem?_take, if_pos (by omega)]
    have hb : i - 1 < ms.length := by omega
    obtain ⟨mb, hmb⟩ : ∃ mb, ms[i - 1]? = some mb :=
      ⟨ms[i - 1], List.getElem?_eq_getElem hb⟩
    have hidx : (i - 1) + 1 = i := by omega
    have hpair := noAdjAssist_pair ms (i - 1) mb ma hna hmb
      (by rw [hidx]; exact hma)
    exact ⟨mb, by rw [hgl]; exact hmb, fun hmb2 => hpair ⟨hmb2, hmaa⟩⟩

/-- The step invariant is preserved by a cancellation test. -/
theorem inv_ite (c : Prop) [Decidable c] (A B : StepResult)
    (hA : StepInv A) (hB : StepInv B) : StepInv (if c then A else B) := by
  by_cases hc : c
  · rw [if_pos hc]; exact hA
  · rw [if_neg hc]; exact hB

/-- The dispatch invariant is preserved by a cancellation test. -/
theorem execInv_ite (c : Prop) [Decidable c] (tcs : List ToolCall)
    (st : AgentState) (A B : List Action × Option RunOutcome × AgentState)
    (hA : ExecInv tcs st A) (hB : ExecInv tcs st B) :
    ExecInv tcs st (if c then A else B) := by
  by_cases hc : c
  · rw [if_pos hc]; exact hA
  · rw [if_neg hc]; exact hB

/-- The tool-dispatch phase keeps the shape of the message list: an early
cancellation ends in a non-assistant message, and a completed nonempty
dispatch ends in the last tool message. -/
theorem execToolCalls_inv (cfg : RunConfig) :
    ∀ (tcs : List ToolCall) (st : AgentState),
      headIsSystem st.messages = true → noAdjAssist st.messages = true →
      ExecInv tcs st (execToolCalls cfg tcs st) := by
  intro tcs
  induction tcs with
  | nil =>
      intro st h1 h2
      exact ⟨h1, h2, fun _ => rfl, fun hne => absurd rfl hne⟩
  | cons tc0 rest ih =>
      intro st h1 h2
      unfold execToolCalls
      simp only []
      have h1a : headIsSystem (st.messages ++
          [toolMessageOf tc0 (executeTool cfg.tools tc0.function.name
            tc0.function.arguments)]) = true :=
        headIsSystem_append _ _ h1
      have h2a : noAdjAssist (st.messages ++
          [toolMessageOf tc0 (executeTool cfg.tools tc0.function.name
            tc0.function.arguments)]) = true :=
        noAdjAssist_append_single _ _ h2 (by
          intro m hm hcon
          exact absurd hcon.2 (by simp [toolMessageOf]))
      have h3a : lastNotAssistant (st.messages ++
          [toolMessageOf tc0 (executeTool cfg.tools tc0.function.name
            tc0.function.arguments)]) = true :=
        lastNotAssistant_append_single _ _ (by simp [toolMessageOf])
      apply execInv_ite
      · exact cleanup_good _ h1a h2a
      · have hrec := ih (observeAborted cfg
            { st with
              messages := st.messages ++
                [toolMessageOf tc0 (executeTool cfg.tools tc0.function.name
                  tc0.function.arguments)] }).2 h1a h2a
        rcases hex : execToolCalls cfg rest (observeAborted cfg
            { st with
              messages := st.messages ++
                [toolMessageOf tc0 (executeTool cfg.tools tc0.function.name
                  tc0.function.arguments)] }).2 with ⟨tr2, o2, st2⟩
        rw [hex] at hrec
        rcases o2 with _ | o2
        · have hrec2 : headIsSystem st2.messages = true ∧
              noAdjAssist st2.messages = true ∧
              (rest = [] → st2 = (observeAborted cfg
                { st with
                  messages := st.messages ++
                    [toolMessageOf tc0 (executeTool cfg.tools tc0.function.name
                      tc0.function.arguments)] }).2) ∧
              (rest ≠ [] → lastNotAssistant st2.messages = true) := hrec
          obtain ⟨g1, g2, g3, g4⟩ := hrec2
          show headIsSystem st2.messages = true ∧ noAdjAssist st2.messages = true ∧
            (tc0 :: rest = [] → st2 = st) ∧
            (tc0 :: rest ≠ [] → lastNotAssistant st2.messages = true)
          refine ⟨g1, g2, fun hcons => List.noConfusion hcons, fun _ => ?_⟩
          by_cases hrest : rest = []
          · rw [g3 hrest]
            exact h3a
          · exact g4 hrest
        · exact hrec

/-- The step invariant for the result built around the tool-dispatch
phase. -/
theorem inv_match_exec (cfg : RunConfig) (tcs : List ToolCall)
    (st0 : AgentState) (pre : List Action)
    (h1 : headIsSystem st0.messages = true) (h2 : noAdjAssist st0.messages = true)
    (h3 : tcs ≠ []) :
    StepInv (match execToolCalls cfg tcs st0 with
             | (tr, some out, st3) => StepResult.done (pre ++ tr) out st3
             | (tr, none, st3) => StepResult.next (pre ++ tr) st3) := by
  have hE := execToolCalls_inv cfg tcs st0 h1 h2
  rcases hex : execToolCalls cfg tcs st0 with ⟨tr, o, st3⟩
  rw [hex] at hE
  rcases o with _ | o
  · show goodMsgs st3.messages = true
    have hE2 : headIsSystem st3.messages = true ∧ noAdjAssist st3.messages = true ∧
        (tcs = [] → st3 = st0) ∧
        (tcs ≠ [] → lastNotAssistant st3.messages = true) := hE
    obtain ⟨g1, g2, _, g4⟩ := hE2
    simp only [goodMsgs, Bool.and_eq_true]
    exact ⟨⟨g1, g2⟩, g4 h3⟩
  · intro _
    exact hE

/-- One loop step preserves the invariant, given the adapter contract and a
loop-shaped entry list. -/
theorem runStep_inv (cfg : RunConfig) (st : AgentState) (hC : LLMContract cfg)
    (hg : goodMsgs st.messages = true) : StepInv (runStep cfg st) := by
  have hg0 := hg
  simp only [goodMsgs, Bool.and_eq_true] at hg0
  obtain ⟨⟨hh, hna⟩, hla⟩ := hg0
  have hg1 : goodMsgs (summarizeMessages cfg.ct (cfg.gen st.callIdx)
      { messages := st.messages, tokenLimit := cfg.tokenLimit,
        apiTotalTokens := st.apiTotalTokens,
        skipNextTokenCheck := st.skipNextTokenCheck }).messages = true :=
    summarizeMessages_preserves_good _ _ _ hg
  simp only [goodMsgs, Bool.and_eq_true] at hg1
  obtain ⟨⟨sh, sna⟩, sla⟩ := hg1
  unfold runStep observeAborted
  apply inv_ite
  · intro _
    exact cleanup_good _ hh hna
  · apply inv_ite
    · intro h
      exact RunOutcome.noConfusion h
    · rcases hgen : cfg.gen
          (summarizePhase cfg { st with pollIdx := st.pollIdx + 1 }).2.callIdx
          (summarizePhase cfg { st with pollIdx := st.pollIdx + 1 }).2.messages
          with e | resp
      · apply inv_ite
        · intro h
          exact RunOutcome.noConfusion h
        · intro h
          exact RunOutcome.noConfusion h
      · simp only []
        rcases htc : resp.toolCalls with _ | tcs
        · intro h
          exact RunOutcome.noConfusion h
        · have htcs : tcs ≠ [] := by
            intro hnil
            exact hC _ _ resp hgen (by rw [htc, hnil])
          rcases hu : resp.usage with _ | u
          · apply inv_ite
            · intro _
              exact cleanup_good _ (headIsSystem_append _ _ sh)
                (noAdjAssist_append_single _ _ sna (by
                  intro m hm hcon
                  exact absurd hcon.1 (lastNotAssistant_spec _ _ sla hm)))
            · exact inv_match_exec cfg tcs _ _ (headIsSystem_append _ _ sh)
                (noAdjAssist_append_single _ _ sna (by
                  intro m hm hcon
                  exact absurd hcon.1 (lastNotAssistant_spec _ _ sla hm))) htcs
          · apply inv_ite
            · intro _
              exact cleanup_good _ (headIsSystem_append _ _ sh)
                (noAdjAssist_append_single _ _ sna (by
                  intro m hm hcon
                  exact absurd hcon.1 (lastNotAssistant_spec _ _ sla hm)))
            · exact inv_match_exec cfg tcs _ _ (headIsSystem_append _ _ sh)
                (noAdjAssist_append_single _ _ sna (by
                  intro m hm hcon
                  exact absurd hcon.1 (lastNotAssistant_spec _ _ sla hm))) htcs

/-- The loop preserves the invariant across all steps. -/
theorem runLoop_inv (cfg : RunConfig) (hC : LLMContract cfg) :
    ∀ (fuel : Nat) (st : AgentState), goodMsgs st.messages = true →
      (runLoop cfg fuel st).2.1 = .cancelledCleanup →
      lastRoleOK (runLoop cfg fuel st).2.2.messages := by
  intro fuel
  induction fuel with
  | zero =>
      intro st hg hout
      exact absurd hout (by simp [runLoop])
  | succ k ih =>
      intro st hg hout
      have hstep := runStep_inv cfg st hC hg
      simp only [runLoop] at hout ⊢
      rcases hr : runStep cfg st with ⟨tr, out, st2⟩ | ⟨tr, st2⟩ <;>
        rw [hr] at hstep hout
      · exact hstep hout
      · exact ih st2 hstep hout

/-- Claim C4: `cleanupIncompleteMessages` truncates strictly before the last
assistant-role message (the index found is that of the last assistant
message, everything from it on is removed, and a list with no assistant
message is returned unchanged); and in every run over a loop-shaped message
list with a client satisfying the adapter contract, an outcome of
cancellation-with-cleanup leaves a final message list whose last message has
role system, user or tool — never assistant. -/
theorem cleanup_truncates_and_lastRole :
    (∀ ms : List Message,
      (lastAssistantIdx ms = none →
        (∀ m ∈ ms, m.role ≠ .assistant) ∧ cleanupIncompleteMessages ms = ms) ∧
      (∀ i, lastAssistantIdx ms = some i →
        (∃ m, ms[i]? = some m ∧ m.role = .assistant) ∧
        (∀ j m, i < j → ms[j]? = some m → m.role ≠ .assistant) ∧
        cleanupIncompleteMessages ms = ms.take i)) ∧
    (∀ (cfg : RunConfig) (ms : List Message), LLMContract cfg →
      goodMsgs ms = true → (run cfg ms).2.1 = .cancelledCleanup →
      ∃ m, (run cfg ms).2.2.messages.getLast? = some m ∧
        (m.role = .system ∨ m.role = .user ∨ m.role = .tool)) := by
  constructor
  · intro ms
    constructor
    · intro h
      exact ⟨lastAssistantIdx_none_no_assist ms h,
        by simp [cleanupIncompleteMessages, h]⟩
    · intro i h
      obtain ⟨h1, h2⟩ := lastAssistantIdx_some_spec ms i h
      exact ⟨h1, h2, by simp [cleanupIncompleteMessages, h]⟩
  · intro cfg ms hC hg hout
    obtain ⟨m, hm, hr⟩ := runLoop_inv cfg hC maxSteps (initialState ms) hg hout
    refine ⟨m, hm, ?_⟩
    cases hR : m.role with
    | system => exact Or.inl rfl
    | user => exact Or.inr (Or.inl rfl)
    | assistant => exact absurd hR hr
    | tool => exact Or.inr (Or.inr rfl)

/-- Witness for `cleanup_truncates_and_lastRole`: an aborted-at-entry run
over a system-then-user list keeps the user message last. -/
theorem cleanup_truncates_and_lastRole_witness :
    LLMContract cfgAborted ∧ goodMsgs msgsSU = true ∧
    (run cfgAborted msgsSU).2.1 = .cancelledCleanup ∧
    (∃ m, (run cfgAborted msgsSU).2.2.messages.getLast? = some m ∧
      (m.role = .system ∨ m.role = .user ∨ m.role = .tool)) := by
  have hC : LLMContract cfgAborted := by
    intro n ms r h
    simp [cfgAborted, scriptGen] at h
  exact ⟨hC, by decide, by decide,
    cleanup_truncates_and_lastRole.2 cfgAborted msgsSU hC (by decide) (by decide)⟩

end MiniAgents
